import Mathlib

/-!
Shallow embedding of the graph execution engine of the Libertas-Infinita
visual node editor (src/libertas-infinita.js): the node/connection data
model, the recursive propagation algorithm (processNodeData), the
connection resolver (completeConnection), the history manager
(recordState / undo / redo), the session serializer (serialize /
deserialize) and the data processors cited by the claims
(processTextNode, processImportNode, processFilterNode, processMergeNode,
processAggregateNode).

JavaScript objects are modelled as ordered association lists, the JS
number type is modelled as exact rationals (which agree with IEEE
doubles on the integer values the claims exercise), and the DOM state of
a node (the values of its [data-param] / [data-output] input elements)
is carried in the node record itself.
-/

namespace LibertasInfinita

/-- An exact rational, the model of the JS number type.  It is kept
normalized (positive denominator, coprime with the numerator) by the
smart constructor below, so structural equality is numeric equality.
Exact rational arithmetic agrees with IEEE doubles on the small integer
values the claims exercise. -/
structure JNum where
  num : Int
  den : Nat
deriving Repr, DecidableEq

/-- Build a normalized rational from a numerator and a positive
denominator (a zero denominator never arises from the modelled code). -/
def JNum.normalize (n : Int) (d : Nat) : JNum :=
  if d == 0 then ⟨0, 1⟩
  else
    let g := n.natAbs.gcd d
    ⟨n / (g : Int), d / g⟩

/-- The integer `n` as a rational. -/
def JNum.ofInt (n : Int) : JNum := ⟨n, 1⟩

/-- The natural `n` as a rational. -/
def JNum.ofNat (n : Nat) : JNum := ⟨n, 1⟩

/-- Rational addition. -/
def JNum.add (a b : JNum) : JNum :=
  JNum.normalize (a.num * b.den + b.num * a.den) (a.den * b.den)

/-- Rational multiplication. -/
def JNum.mul (a b : JNum) : JNum :=
  JNum.normalize (a.num * b.num) (a.den * b.den)

/-- Rational division; division by zero (which the modelled code guards
against) is given an arbitrary value. -/
def JNum.div (a b : JNum) : JNum :=
  let n := a.num * b.den
  let m := b.num * a.den
  if m < 0 then JNum.normalize (-n) (-m).toNat else JNum.normalize n m.toNat

instance : BEq JNum := instBEqOfDecidableEq

instance : LawfulBEq JNum where
  eq_of_beq h := of_decide_eq_true h
  rfl := decide_eq_true rfl

/-- A JavaScript value as it flows through node outputs, DOM fields and
session files: strings, numbers, booleans, arrays, plain objects and
undefined. -/
inductive Value where
  | str (s : String)
  | num (q : JNum)
  | bool (b : Bool)
  | arr (vs : List Value)
  | obj (fields : List (String × Value))
  | undef
deriving Repr

mutual

/-- Structural equality on values.  This coincides with the JS
SameValueZero comparison on primitive values (strings, numbers,
booleans, undefined); for arrays and objects JS compares references, so
claims that rely on this comparison are stated for primitive values
only. -/
def Value.beq : Value → Value → Bool
  | .str a, .str b => a == b
  | .num a, .num b => a == b
  | .bool a, .bool b => a == b
  | .arr a, .arr b => Value.beqList a b
  | .obj a, .obj b => Value.beqFields a b
  | .undef, .undef => true
  | _, _ => false

/-- Element-wise equality of value lists. -/
def Value.beqList : List Value → List Value → Bool
  | [], [] => true
  | x :: xs, y :: ys => Value.beq x y && Value.beqList xs ys
  | _, _ => false

/-- Field-wise equality of object field lists. -/
def Value.beqFields : List (String × Value) → List (String × Value) → Bool
  | [], [] => true
  | (k, x) :: xs, (l, y) :: ys => k == l && Value.beq x y && Value.beqFields xs ys
  | _, _ => false

end

instance : BEq Value := ⟨Value.beq⟩

mutual

theorem Value.beq_refl : (v : Value) → Value.beq v v = true
  | .str s => beq_self_eq_true s
  | .num q => beq_self_eq_true q
  | .bool b => beq_self_eq_true b
  | .arr vs => Value.beqList_refl vs
  | .obj fs => Value.beqFields_refl fs
  | .undef => rfl

theorem Value.beqList_refl : (vs : List Value) → Value.beqList vs vs = true
  | [] => rfl
  | x :: xs =>
      show (Value.beq x x && Value.beqList xs xs) = true from by
        rw [Value.beq_refl x, Value.beqList_refl xs]; rfl

theorem Value.beqFields_refl : (fs : List (String × Value)) → Value.beqFields fs fs = true
  | [] => rfl
  | (k, v) :: xs =>
      show (k == k && Value.beq v v && Value.beqFields xs xs) = true from by
        rw [beq_self_eq_true, Value.beq_refl v, Value.beqFields_refl xs]; rfl

end

theorem strEqOfBeq {a b : String} (h : (a == b) = true) : a = b := eq_of_beq h

theorem jnumEqOfBeq {a b : JNum} (h : (a == b) = true) : a = b := eq_of_beq h

theorem boolEqOfBeq {a b : Bool} (h : (a == b) = true) : a = b := eq_of_beq h

mutual

theorem Value.eq_of_beq : (a b : Value) → Value.beq a b = true → a = b
  | .str _, .str _, h => congrArg Value.str (strEqOfBeq h)
  | .num _, .num _, h => congrArg Value.num (jnumEqOfBeq h)
  | .bool _, .bool _, h => congrArg Value.bool (boolEqOfBeq h)
  | .arr a, .arr b, h => congrArg Value.arr (Value.eqList_of_beq a b h)
  | .obj a, .obj b, h => congrArg Value.obj (Value.eqFields_of_beq a b h)
  | .undef, .undef, _ => rfl
  | .str _, .num _, h => Bool.noConfusion h
  | .str _, .bool _, h => Bool.noConfusion h
  | .str _, .arr _, h => Bool.noConfusion h
  | .str _, .obj _, h => Bool.noConfusion h
  | .str _, .undef, h => Bool.noConfusion h
  | .num _, .str _, h => Bool.noConfusion h
  | .num _, .bool _, h => Bool.noConfusion h
  | .num _, .arr _, h => Bool.noConfusion h
  | .num _, .obj _, h => Bool.noConfusion h
  | .num _, .undef, h => Bool.noConfusion h
  | .bool _, .str _, h => Bool.noConfusion h
  | .bool _, .num _, h => Bool.noConfusion h
  | .bool _, .arr _, h => Bool.noConfusion h
  | .bool _, .obj _, h => Bool.noConfusion h
  | .bool _, .undef, h => Bool.noConfusion h
  | .arr _, .str _, h => Bool.noConfusion h
  | .arr _, .num _, h => Bool.noConfusion h
  | .arr _, .bool _, h => Bool.noConfusion h
  | .arr _, .obj _, h => Bool.noConfusion h
  | .arr _, .undef, h => Bool.noConfusion h
  | .obj _, .str _, h => Bool.noConfusion h
  | .obj _, .num _, h => Bool.noConfusion h
  | .obj _, .bool _, h => Bool.noConfusion h
  | .obj _, .arr _, h => Bool.noConfusion h
  | .obj _, .undef, h => Bool.noConfusion h
  | .undef, .str _, h => Bool.noConfusion h
  | .undef, .num _, h => Bool.noConfusion h
  | .undef, .bool _, h => Bool.noConfusion h
  | .undef, .arr _, h => Bool.noConfusion h
  | .undef, .obj _, h => Bool.noConfusion h

theorem Value.eqList_of_beq : (a b : List Value) → Value.beqList a b = true → a = b
  | [], [], _ => rfl
  | [], _ :: _, h => Bool.noConfusion h
  | _ :: _, [], h => Bool.noConfusion h
  | x :: xs, y :: ys, h => by
      have h2 : (Value.beq x y && Value.beqList xs ys) = true := h
      rw [Bool.and_eq_true] at h2
      rw [Value.eq_of_beq x y h2.1, Value.eqList_of_beq xs ys h2.2]

theorem Value.eqFields_of_beq :
    (a b : List (String × Value)) → Value.beqFields a b = true → a = b
  | [], [], _ => rfl
  | [], _ :: _, h => Bool.noConfusion h
  | _ :: _, [], h => Bool.noConfusion h
  | (k, x) :: xs, (l, y) :: ys, h => by
      have h2 : (k == l && Value.beq x y && Value.beqFields xs ys) = true := h
      rw [Bool.and_eq_true, Bool.and_eq_true] at h2
      obtain ⟨⟨hk, hv⟩, hrest⟩ := h2
      rw [Value.eq_of_beq x y hv, Value.eqFields_of_beq xs ys hrest,
        strEqOfBeq hk]

end

instance : LawfulBEq Value where
  eq_of_beq h := Value.eq_of_beq _ _ h
  rfl := Value.beq_refl _

instance : DecidableEq Value := fun a b =>
  if h : Value.beq a b = true then isTrue (Value.eq_of_beq a b h)
  else isFalse (fun he => h (he ▸ Value.beq_refl a))

/-- Truthiness of a JS value: the empty string, 0, false and undefined are
falsy; every other modelled value (any array or object) is truthy. -/
def Value.truthy : Value → Bool
  | .str s => !(s == "")
  | .num q => !(q == JNum.ofInt 0)
  | .bool b => b
  | .arr _ => true
  | .obj _ => true
  | .undef => false

/-- The JS short-circuit `a || b` on values: `a` if truthy, else `b`. -/
def jsOr (a b : Value) : Value := if a.truthy then a else b

/-- Property read `o[k]` on an object field list: the first binding of `k`
(JS objects never hold a key twice).  `none` models `undefined`. -/
def getProp (fields : List (String × Value)) (k : String) : Option Value :=
  (fields.find? (fun kv => kv.1 == k)).map (fun kv => kv.2)

/-- Property write `o[k] = v`: overwrite the binding in place if `k` is
present, append it otherwise (JS objects keep first-insertion key order). -/
def setProp (fields : List (String × Value)) (k : String) (v : Value) :
    List (String × Value) :=
  if fields.any (fun kv => kv.1 == k) then
    fields.map (fun kv => if kv.1 == k then (k, v) else kv)
  else fields ++ [(k, v)]

/-- The JS object spread `{ ...a, ...b }`: the fields of `a` in order, with
each field of `b` written over it in turn. -/
def spread (a b : List (String × Value)) : List (String × Value) :=
  b.foldl (fun acc kv => setProp acc kv.1 kv.2) a

/-- The whitespace characters the string helpers strip (the ones relevant
to the claims' inputs). -/
def isWs (c : Char) : Bool := c == ' ' || c == '\t' || c == '\n' || c == '\r'

/-- JS String.prototype.trim on a character list. -/
def trimChars (cs : List Char) : List Char :=
  ((cs.dropWhile isWs).reverse.dropWhile isWs).reverse

/-- JS String.prototype.split with a single-character separator. -/
def splitChars (sep : Char) : List Char → List (List Char)
  | [] => [[]]
  | c :: cs =>
      let r := splitChars sep cs
      if c == sep then [] :: r
      else
        match r with
        | [] => [[c]]
        | p :: ps => (c :: p) :: ps

/-- JS String.prototype.trim. -/
def jsTrim (s : String) : String := String.mk (trimChars s.data)

/-- JS String.prototype.includes on a single-character needle. -/
def containsChar (s : String) (c : Char) : Bool := s.data.any (fun d => d == c)

/-- One endpoint of a connection: `{ node, socket }`. -/
structure Endpoint where
  node : String
  socket : String
deriving Repr, DecidableEq

/-- A connection `{ from: {node, socket}, to: {node, socket} }` from an
output socket to an input socket. -/
structure Conn where
  «from» : Endpoint
  «to» : Endpoint
deriving Repr, DecidableEq

/-- The model of one entry of `this.nodes` together with the DOM state the
engine reads and writes: `fields` holds the current values of the node's
`[data-param]` and `[data-output]` input elements (the user-editable
fields that `serialize` collects into `content`), `outputs` is
`nodeData.outputs`, and `status` is the text of the node's
`.node-status` element. -/
structure NodeData where
  id : String
  type : String
  x : Int
  y : Int
  width : String
  height : String
  fields : List (String × Value)
  outputs : List (String × Value)
  status : String
  parentId : Option String
  children : List String
deriving Repr, DecidableEq

/-- The graph store of the editor: the ordered node table (`this.nodes`,
a JS Map in insertion order), the connection list, the view transform and
the id counter. -/
structure Editor where
  nodes : List NodeData
  connections : List Conn
  canvasOffset : Int × Int
  scale : JNum
  nodeCounter : Nat
deriving Repr, DecidableEq

/-- `this.nodes.get(nodeId)`. -/
def Editor.findNode (ed : Editor) (nodeId : String) : Option NodeData :=
  ed.nodes.find? (fun nd => nd.id == nodeId)

/-- Whether `nodeId` is present in the node table. -/
def Editor.hasNode (ed : Editor) (nodeId : String) : Bool :=
  ed.nodes.any (fun nd => nd.id == nodeId)

/-- `this.nodes.get(nodeId).outputs[socket]` with a missing node reading as
undefined.  (In JS a dangling node id would throw a TypeError here; the
claims about processors all presuppose the source node exists.) -/
def Editor.getOutput (ed : Editor) (nodeId socket : String) : Option Value :=
  (ed.findNode nodeId).bind (fun nd => getProp nd.outputs socket)

/-- The parts of a node a processor may write: its editable DOM fields,
its `outputs` map and its status text.  Processors in the source mutate
exactly these (they never touch a node's id, type, geometry or the
connection list). -/
structure NodeMut where
  fields : List (String × Value)
  outputs : List (String × Value)
  status : String
deriving Repr, DecidableEq

/-- The mutable part of a node as it currently stands. -/
def NodeData.mutOf (nd : NodeData) : NodeMut :=
  ⟨nd.fields, nd.outputs, nd.status⟩

/-- Write a processor's result back into the node. -/
def NodeData.applyMut (nd : NodeData) (m : NodeMut) : NodeData :=
  { nd with fields := m.fields, outputs := m.outputs, status := m.status }

/-- Replace the mutable part of the node `nodeId` in the table. -/
def Editor.setNodeMut (ed : Editor) (nodeId : String) (m : NodeMut) : Editor :=
  { ed with nodes := ed.nodes.map (fun nd => if nd.id == nodeId then nd.applyMut m else nd) }

/-- A node processor: reads the editor (connections and upstream outputs)
and the node, and returns the node's new mutable part. -/
def Processor : Type := Editor → NodeData → NodeMut

/-- A processor registry: the model of `this.nodeProcessors`, keyed by the
node's type tag. -/
def Registry : Type := String → Option Processor

/-- Run the node through its registered processor, leaving it unchanged
when the registry has no entry for its type (`if (processor)` in
processNodeData). -/
def runProcessor (P : Registry) (ed : Editor) (nd : NodeData) : NodeMut :=
  match P nd.type with
  | some f => f ed nd
  | none => nd.mutOf

/-- The `this.connections.forEach` loop of processNodeData over a
snapshot `cs` of the connection list: every connection leaving `nodeId`
triggers `step` — the recursive processNodeData call at the remaining
stack depth — on its destination.  A stack overflow inside a call aborts
the rest of the loop (the exception unwinds), with the mutations made so
far kept. -/
def runConns (step : Editor → String → Editor × List String × Bool) :
    List Conn → Editor → String → Editor × List String × Bool
  | [], ed, _ => (ed, [], true)
  | c :: cs, ed, nodeId =>
      if c.«from».node == nodeId then
        let r := step ed c.«to».node
        if r.2.2 then
          let r2 := runConns step cs r.1 nodeId
          (r2.1, r.2.1 ++ r2.2.1, r2.2.2)
        else (r.1, r.2.1, false)
      else runConns step cs ed nodeId

/-- `processNodeData(nodeId)`: look the node up (a missing node is a
no-op), run its processor, then recurse into `c.to.node` for every
connection leaving `nodeId`, in connection-list order.

The JS recursion has no termination guard, so the model carries a fuel
counter standing for the remaining call-stack depth: each nested call
consumes one unit, and running out of fuel models the stack overflow a
cyclic graph produces.  The result is the final editor, the list of node
ids whose processNodeData body ran (in first-entry order), and a flag
that is false exactly when the walk died of fuel exhaustion (in JS, the
RangeError unwinds and the remaining cascade is abandoned, but mutations
performed so far persist — hence the editor is returned in either case). -/
def processNodeData (P : Registry) : Nat → Editor → String → Editor × List String × Bool
  | 0, ed, _ => (ed, [], false)
  | fuel + 1, ed, nodeId =>
      match ed.findNode nodeId with
      | none => (ed, [], true)
      | some nd =>
          let ed1 := ed.setNodeMut nodeId (runProcessor P ed nd)
          let r := runConns (processNodeData P fuel) ed1.connections ed1 nodeId
          (r.1, nodeId :: r.2.1, r.2.2)

/-- `this.connections.find(c => c.to.node === nodeId && c.to.socket === socket)`:
the first connection into the given input socket. -/
def findInputConn (ed : Editor) (nodeId socket : String) : Option Conn :=
  ed.connections.find? (fun c => c.«to».node == nodeId && c.«to».socket == socket)

/-- Read a DOM input element's value from the node's field map.  DOM
values are strings; a missing or non-string entry reads as the empty
string. -/
def NodeData.fieldStr (nd : NodeData) (k : String) : String :=
  match getProp nd.fields k with
  | some (.str s) => s
  | _ => ""

/-- processTextNode: with a `text_in` connection, copy the upstream value
(`|| ''`) into the textarea and into `outputs.text_out`; otherwise publish
the textarea's current value.  The text node's textarea is its
`data-output="text_out"` element. -/
def processTextNode : Processor := fun ed nd =>
  match findInputConn ed nd.id "text_in" with
  | some conn =>
      let inputText :=
        jsOr ((ed.getOutput conn.«from».node conn.«from».socket).getD .undef) (.str "")
      ⟨setProp nd.fields "text_out" inputText,
       setProp nd.outputs "text_out" inputText, nd.status⟩
  | none =>
      ⟨nd.fields,
       setProp nd.outputs "text_out" ((getProp nd.fields "text_out").getD (.str "")),
       nd.status⟩

/-- processImportNode: publish the textarea's value (its
`data-output="data_out"` element) as `outputs.data_out`. -/
def processImportNode : Processor := fun _ nd =>
  ⟨nd.fields,
   setProp nd.outputs "data_out" ((getProp nd.fields "data_out").getD (.str "")),
   nd.status⟩

/-- The filter predicate built by `new Function('row', 'return ' + condition)`
and applied per row.  The construction and each per-row call run in the JS
engine, so they are modelled as an oracle: building the predicate from the
condition text may fail (syntactically invalid expression), and each
per-row evaluation may itself fail. -/
def CondEval : Type := String → Except String (Value → Except String Bool)

/-- `inputData.filter(filterFunc)`: keep the rows on which the predicate
returns a truthy value; a throw on any row aborts the whole filter. -/
def jsFilter (pred : Value → Except String Bool) : List Value → Except String (List Value)
  | [] => .ok []
  | v :: vs =>
      match pred v with
      | .error e => .error e
      | .ok b =>
          match jsFilter pred vs with
          | .error e => .error e
          | .ok rest => .ok (if b then v :: rest else rest)

/-- processFilterNode: no input connection or a non-array input short out
with an empty output and a status message; an empty condition passes the
input through; otherwise the filter runs inside try/catch, and on any
failure the output becomes the empty array and the error message is
recorded in this node's status. -/
def processFilterNode (ev : CondEval) : Processor := fun ed nd =>
  match findInputConn ed nd.id "data_in" with
  | none => ⟨nd.fields, setProp nd.outputs "data_out" (.arr []), "No input connected."⟩
  | some conn =>
      let inputData := (ed.getOutput conn.«from».node conn.«from».socket).getD .undef
      let condition := nd.fieldStr "condition"
      match inputData with
      | .arr rows =>
          if condition == "" then
            ⟨nd.fields, setProp nd.outputs "data_out" (.arr rows), ""⟩
          else
            match
              (match ev condition with
               | .error e => .error e
               | .ok pred => jsFilter pred rows : Except String (List Value)) with
            | .ok kept =>
                ⟨nd.fields, setProp nd.outputs "data_out" (.arr kept),
                 "Filtered " ++ toString rows.length ++ " rows to " ++
                   toString kept.length ++ "."⟩
            | .error msg =>
                ⟨nd.fields, setProp nd.outputs "data_out" (.arr []), "Error: " ++ msg⟩
      | _ => ⟨nd.fields, setProp nd.outputs "data_out" (.arr []), "Error: Input is not an array."⟩

/-- Property read `item[k]` on an array element: object fields for
objects, undefined for the primitives we model. -/
def rowProp : Value → String → Option Value
  | .obj fs, k => getProp fs k
  | _, _ => none

/-- SameValueZero comparison of two possibly-undefined values, as the JS
Map uses for its keys.  Structural equality models it exactly on
primitive values; JS compares arrays and objects by reference, so claims
using this comparison are restricted to primitive key values. -/
def optValBeq : Option Value → Option Value → Bool
  | none, none => true
  | some a, some b => Value.beq a b
  | _, _ => false

/-- `new Map(data2.map(item => [item[rightKey], item])).get(k)`: a Map
built from key/item pairs keeps the last item written for a key, so the
lookup returns the last element of `data2` whose `rightKey` property
equals `k`. -/
def mapGetLast (data2 : List Value) (rightKey : String) (k : Option Value) : Option Value :=
  (data2.filter (fun item => optValBeq (rowProp item rightKey) k)).getLast?

/-- The object fields contributed by a value under object spread: objects
contribute their fields, the primitives we model contribute none. -/
def objFieldsOf : Value → List (String × Value)
  | .obj fs => fs
  | _ => []

/-- `{ ...item1, ...item2 }` on two array elements. -/
def spreadV (a b : Value) : Value := .obj (spread (objFieldsOf a) (objFieldsOf b))

/-- The `left=right` join-key syntax of the merge node: a key containing
`=` is split and both halves trimmed, otherwise the trimmed key is used
on both sides. -/
def splitJoinKey (key : String) : String × String :=
  if containsChar key '=' then
    let parts := (splitChars '=' key.data).map (fun p => String.mk (trimChars p))
    (parts.headD "", (parts.drop 1).headD "")
  else (jsTrim key, jsTrim key)

/-- processMergeNode: requires both inputs connected and a non-empty key;
requires both inputs to be arrays; then produces one output row per row
of the first input, in order — the row itself when the Map lookup misses
(or hits a falsy element), else the row spread-merged with the matching
element of the second input. -/
def processMergeNode : Processor := fun ed nd =>
  let key := nd.fieldStr "key"
  match findInputConn ed nd.id "data_in_1", findInputConn ed nd.id "data_in_2" with
  | some c1, some c2 =>
      if key == "" then
        ⟨nd.fields, setProp nd.outputs "data_out" (.arr []), "Join key is required."⟩
      else
        let lr := splitJoinKey key
        let data1 := (ed.getOutput c1.«from».node c1.«from».socket).getD .undef
        let data2 := (ed.getOutput c2.«from».node c2.«from».socket).getD .undef
        match data1, data2 with
        | .arr d1, .arr d2 =>
            let out := d1.map (fun item1 =>
              match mapGetLast d2 lr.2 (rowProp item1 lr.1) with
              | some item2 => if item2.truthy then spreadV item1 item2 else item1
              | none => item1)
            ⟨nd.fields, setProp nd.outputs "data_out" (.arr out),
             "Merged " ++ toString d1.length ++ " and " ++ toString d2.length ++
               " rows into " ++ toString out.length ++ " rows."⟩
        | _, _ =>
            ⟨nd.fields, setProp nd.outputs "data_out" (.arr []), "Inputs must be arrays."⟩
  | _, _ =>
      ⟨nd.fields, setProp nd.outputs "data_out" (.arr []), "Both inputs must be connected."⟩

/-- The numeric value of a list of decimal digits. -/
def digitsVal (cs : List Char) : Nat :=
  cs.foldl (fun n c => 10 * n + (c.toNat - 48)) 0

/-- JS `parseFloat` on a string, for the plain-decimal fragment we need:
leading whitespace skipped, optional sign, digits with an optional
fractional part, trailing text ignored; `none` models NaN. -/
def parseLeadingFloat (s : String) : Option JNum :=
  let cs := trimChars s.data
  let signed : Int × List Char :=
    match cs with
    | '-' :: rest => (-1, rest)
    | '+' :: rest => (1, rest)
    | _ => (1, cs)
  let intPart := signed.2.takeWhile Char.isDigit
  let rest := signed.2.drop intPart.length
  let fracPart :=
    match rest with
    | '.' :: r => r.takeWhile Char.isDigit
    | _ => []
  if intPart.isEmpty && fracPart.isEmpty then none
  else some (JNum.mul (JNum.ofInt signed.1)
    (JNum.add (JNum.ofNat (digitsVal intPart))
      (JNum.div (JNum.ofNat (digitsVal fracPart)) (JNum.ofNat (10 ^ fracPart.length)))))

/-- `parseFloat(v)` on a possibly-undefined property value: numbers pass
through, strings are parsed, everything else is NaN (`none`). -/
def parseFloatValue : Option Value → Option JNum
  | some (.num q) => some q
  | some (.str s) => parseLeadingFloat s
  | _ => none

/-- `parseFloat(x) || 0`: NaN coerces to 0. -/
def nanToZero : Option JNum → JNum
  | none => JNum.ofInt 0
  | some q => q

/-- The sum reducer of the aggregate node:
`rows.reduce((sum, row) => sum + (parseFloat(row[aggKey]) || 0), 0)`. -/
def sumOf (aggKey : String) (rows : List Value) : JNum :=
  rows.foldl (fun s r => JNum.add s (nanToZero (parseFloatValue (rowProp r aggKey))))
    (JNum.ofInt 0)

/-- The string a value turns into when used as a JS object property key
(`String(v)`).  Claims use string-valued group keys; numbers print their
integer value when integral. -/
def keyStringOf : Option Value → String
  | none => "undefined"
  | some (.str s) => s
  | some (.num q) => if q.den == 1 then toString q.num
      else toString q.num ++ "/" ++ toString q.den
  | some (.bool b) => if b then "true" else "false"
  | some .undef => "undefined"
  | some (.arr _) => ""
  | some (.obj _) => "[object Object]"

/-- The group-by reduce of the aggregate node: rows are bucketed by the
string form of their `groupBy` property, buckets appearing in first-hit
order.  (JS additionally fronts integer-like object keys in numeric
order when enumerating; the claims use non-numeric keys, for which
insertion order is the enumeration order.) -/
def groupRows (groupBy : String) (input : List Value) : List (String × List Value) :=
  input.foldl (fun acc row =>
    let key := keyStringOf (rowProp row groupBy)
    if acc.any (fun g => g.1 == key) then
      acc.map (fun g => if g.1 == key then (g.1, g.2 ++ [row]) else g)
    else acc ++ [(key, [row])]) []

/-- One group's aggregate value: count, sum, or average; any other
`aggFunc` leaves the switch without assigning (undefined). -/
def aggValueOf (aggFunc aggKey : String) (rows : List Value) : Value :=
  if aggFunc == "count" then .num (JNum.ofNat rows.length)
  else if aggFunc == "sum" then .num (sumOf aggKey rows)
  else if aggFunc == "avg" then
    .num (if rows.length > 0 then JNum.div (sumOf aggKey rows) (JNum.ofNat rows.length)
      else JNum.ofInt 0)
  else (.undef)

/-- processAggregateNode: requires an input connection, non-empty
`groupBy` and `aggKey`, and an array input; then emits one object per
group, `{ [groupBy]: key, [aggFunc + '_of_' + aggKey]: value }`. -/
def processAggregateNode : Processor := fun ed nd =>
  let groupBy := nd.fieldStr "groupBy"
  let aggFunc := nd.fieldStr "aggFunc"
  let aggKey := nd.fieldStr "aggKey"
  match findInputConn ed nd.id "data_in" with
  | none => ⟨nd.fields, setProp nd.outputs "data_out" (.arr []), "No input connected."⟩
  | some conn =>
      if groupBy == "" || aggKey == "" then
        ⟨nd.fields, setProp nd.outputs "data_out" (.arr []),
         "Group By and Of Key are required."⟩
      else
        match (ed.getOutput conn.«from».node conn.«from».socket).getD .undef with
        | .arr input =>
            let result := (groupRows groupBy input).map (fun g =>
              Value.obj (setProp (setProp [] groupBy (.str g.1))
                (aggFunc ++ "_of_" ++ aggKey) (aggValueOf aggFunc aggKey g.2)))
            ⟨nd.fields, setProp nd.outputs "data_out" (.arr result),
             "Aggregated " ++ toString input.length ++ " rows into " ++
               toString result.length ++ " groups."⟩
        | _ => ⟨nd.fields, setProp nd.outputs "data_out" (.arr []), "Input must be an array."⟩

/-- The model of `this.nodeProcessors` restricted to the processors the
claims exercise; the source registry has further entries (csv, json,
find_replace, the automation and publishing nodes, …) that no claim
needs.  Types absent from the source registry (and hence from this one)
are exactly what claim C6 is about. -/
def nodeProcessors (ev : CondEval) : Registry := fun t =>
  if t == "text" then some processTextNode
  else if t == "import" then some processImportNode
  else if t == "filter" then some (processFilterNode ev)
  else if t == "merge" then some processMergeNode
  else if t == "aggregate" then some processAggregateNode
  else none

/-- Whether a connection targets the input socket
`(targetNodeId, targetSocketName)`. -/
def connectionTargets (c : Conn) (targetNodeId targetSocketName : String) : Bool :=
  c.«to».node == targetNodeId && c.«to».socket == targetSocketName

/-- completeConnection: a self-loop returns early with no change;
otherwise every connection already targeting the destination socket is
filtered out, the new connection is pushed, and the destination node is
re-propagated.  (The interleaved recordState touches only the history,
and updateConnections / updateSocketStates only redraw the SVG layer.) -/
def completeConnection (P : Registry) (fuel : Nat) (ed : Editor)
    (connectionStart : Endpoint) (targetNodeId targetSocketName : String) : Editor :=
  if connectionStart.node == targetNodeId then ed
  else
    let ed1 := { ed with connections :=
      ed.connections.filter (fun c => !(connectionTargets c targetNodeId targetSocketName))
        ++ [⟨connectionStart, ⟨targetNodeId, targetSocketName⟩⟩] }
    (processNodeData P fuel ed1 targetNodeId).1

/-- One serialized node of the session format: position, size, the
`content` map collected from the node's `[data-param]` and
`[data-output]` elements, and the layout links.  (The cosmetic
`properties` / `codeBlockProperties` blobs are copied through verbatim by
both directions and are not modelled.) -/
structure SessionNode where
  id : String
  type : String
  x : Int
  y : Int
  width : String
  height : String
  content : List (String × Value)
  parentId : Option String
  children : List String
deriving Repr, DecidableEq

/-- A serialized session: `{ nodes, connections, canvasOffset, scale,
nodeCounter }`.  The source stores it as pretty-printed JSON with a fixed
key order, so textual equality of two snapshots coincides with
structural equality of these records. -/
structure Session where
  nodes : List SessionNode
  connections : List Conn
  canvasOffset : Int × Int
  scale : JNum
  nodeCounter : Nat
deriving Repr, DecidableEq

/-- The per-node part of serialize: geometry from the DOM, `content` from
the `[data-param]` / `[data-output]` elements (which is exactly the
node's field map, in DOM order). -/
def serializeNode (nd : NodeData) : SessionNode :=
  ⟨nd.id, nd.type, nd.x, nd.y, nd.width, nd.height, nd.fields, nd.parentId, nd.children⟩

/-- serialize: snapshot the whole graph plus view transform and counter. -/
def serialize (ed : Editor) : Session :=
  ⟨ed.nodes.map serializeNode, ed.connections, ed.canvasOffset, ed.scale, ed.nodeCounter⟩

/-- The options object handed to createNode during deserialization:
`{ ...nodeState.content, id, width, height, parentId, children,
fromSerialization: true }`. -/
structure CreateOptions where
  id : Option String
  width : String
  height : String
  content : List (String × Value)
  parentId : Option String
  children : List String
deriving Repr

/-- `${options.k || ''}`: the string a content-template interpolates for
an absent or falsy option. -/
def strField (content : List (String × Value)) (k : String) : Value :=
  jsOr ((getProp content k).getD .undef) (.str "")

/-- The value a `<select data-param=...>` ends up with: the option marked
selected when the stored value names one of the choices, else the first
choice (the DOM default). -/
def selectField (choices : List String) (content : List (String × Value)) (k : String) :
    Value :=
  match getProp content k with
  | some (.str s) => if choices.contains s then .str s else .str (choices.headD "")
  | _ => .str (choices.headD "")

/-- The `[data-param]` / `[data-output]` input elements each modelled
content template creates, with their initial values as the template
interpolates them from `options`:
* text — a `data-output="text_out"` textarea initialized from
  `options.text` (note: not from `options.text_out`, which is the key
  serialize stores the textarea under);
* import — a `data-output="data_out"` textarea initialized from
  `options.data_out || options.text`;
* filter — a `data-param="condition"` textarea from `options.condition`;
* merge — a `data-param="key"` input from `options.key`;
* aggregate — `groupBy` and `aggKey` inputs and the `aggFunc` select.
Unknown types have no entry in `nodeCreators` and render no content. -/
def templateFields (type : String) (content : List (String × Value)) :
    List (String × Value) :=
  if type == "text" then [("text_out", strField content "text")]
  else if type == "import" then
    [("data_out", jsOr ((getProp content "data_out").getD .undef) (strField content "text"))]
  else if type == "filter" then [("condition", strField content "condition")]
  else if type == "merge" then [("key", strField content "key")]
  else if type == "aggregate" then
    [("groupBy", strField content "groupBy"),
     ("aggFunc", selectField ["sum", "count", "avg"] content "aggFunc"),
     ("aggKey", strField content "aggKey")]
  else []

/-- `parseInt(nodeId.split('_')[1])`: the digits at the start of the part
after the first underscore; `none` models NaN. -/
def parseIntAfterUnderscore (nodeId : String) : Option Nat :=
  match (splitChars '_' nodeId.data).drop 1 with
  | [] => none
  | part :: _ =>
      let ds := part.takeWhile Char.isDigit
      if ds.isEmpty then none else some (digitsVal ds)

/-- createNode: use the caller-supplied id when truthy (no counter
bump), else mint `node_<counter>` and post-increment; then advance the
counter past any numeric suffix of the chosen id; build the node with the
type's template fields and empty outputs and append it to the node
table.  (The trailing recordState is skipped on the deserialization path
by `fromSerialization` / the restoring flag, which is the only path this
model invokes createNode on.) -/
def createNode (ed : Editor) (type : String) (x y : Int) (o : CreateOptions) : Editor :=
  let genId := "node_" ++ toString ed.nodeCounter
  let idAndCounter : String × Nat :=
    match o.id with
    | some i => if i == "" then (genId, ed.nodeCounter + 1) else (i, ed.nodeCounter)
    | none => (genId, ed.nodeCounter + 1)
  let c2 :=
    match parseIntAfterUnderscore idAndCounter.1 with
    | some k => if idAndCounter.2 ≤ k then k + 1 else idAndCounter.2
    | none => idAndCounter.2
  let nd : NodeData :=
    { id := idAndCounter.1, type := type, x := x, y := y,
      width := o.width, height := o.height,
      fields := templateFields type o.content,
      outputs := [], status := "",
      parentId := o.parentId, children := o.children }
  { ed with nodes := ed.nodes ++ [nd], nodeCounter := c2 }

/-- The result of JSON.parse on a session file: any of the expected top
level fields may be missing. -/
structure ParsedSession where
  nodes : Option (List SessionNode)
  connections : Option (List Conn)
  canvasOffset : Option (Int × Int)
  scale : Option JNum
  nodeCounter : Option Nat
deriving Repr

/-- A well-formed session parses to all of its fields. -/
def Session.toParsed (s : Session) : ParsedSession :=
  ⟨some s.nodes, some s.connections, some s.canvasOffset, some s.scale, some s.nodeCounter⟩

/-- The createNode options for one deserialized node. -/
def optionsOfSessionNode (n : SessionNode) : CreateOptions :=
  ⟨some n.id, n.width, n.height, n.content, n.parentId, n.children⟩

/-- The body of deserialize after JSON.parse has succeeded, running
inside its try/catch: clear the graph, restore the view transform and
counter (with `||` defaults), rebuild every node through createNode,
install the connection list verbatim, then run processNodeData once per
node in table order.  A missing `nodes` field makes
`state.nodes.forEach` throw after the graph was already cleared: the
catch block shows the single alert and leaves the cleared graph behind.
A propagation that dies of stack overflow likewise reaches the catch with
the mutations made so far in place.  The returned flag records whether
the failure alert was shown. -/
def deserializeCore (P : Registry) (fuel : Nat) (_ed : Editor) (ps : ParsedSession) :
    Editor × Bool :=
  let ed1 : Editor :=
    { nodes := [], connections := [],
      canvasOffset := ps.canvasOffset.getD (0, 0),
      scale := match ps.scale with
        | some q => if q == JNum.ofInt 0 then JNum.ofInt 1 else q
        | none => JNum.ofInt 1,
      nodeCounter := ps.nodeCounter.getD 0 }
  match ps.nodes with
  | none => (ed1, true)
  | some ns =>
      let ed2 := ns.foldl (fun e n => createNode e n.type n.x n.y (optionsOfSessionNode n)) ed1
      let ed3 := { ed2 with connections := ps.connections.getD [] }
      let r := ed3.nodes.foldl (fun (acc : Editor × Bool) nd =>
          if acc.2 then
            let p := processNodeData P fuel acc.1 nd.id
            (p.1, p.2.2)
          else acc) (ed3, true)
      (r.1, !r.2)

/-- deserialize on an already-parsed (well-formed) session, the form undo
and redo restore through. -/
def deserialize (P : Registry) (fuel : Nat) (ed : Editor) (sess : Session) : Editor :=
  (deserializeCore P fuel ed sess.toParsed).1

/-- JSON.parse on the raw text of a session file, modelled as an oracle:
`none` is a parse error (the throw happens before any graph mutation). -/
def JsonParse : Type := String → Option ParsedSession

/-- The load boundary of deserialize on a raw string: a JSON parse error
is caught with the graph untouched; later structural errors are caught
after the graph was already cleared or partially rebuilt.  The flag
records whether the failure alert was shown. -/
def loadFromString (parse : JsonParse) (P : Registry) (fuel : Nat)
    (ed : Editor) (s : String) : Editor × Bool :=
  match parse s with
  | none => (ed, true)
  | some ps => deserializeCore P fuel ed ps

/-- `this.history.maxHistory`. -/
def maxHistory : Nat := 50

/-- The two history stacks.  Stack top is the list's last element (JS
push/pop work at the end; `shift()` evicts the head). -/
structure History where
  undoStack : List Session
  redoStack : List Session
  isRestoring : Bool
deriving Repr, DecidableEq

/-- The live editor together with its history manager. -/
structure App where
  ed : Editor
  hist : History
deriving Repr, DecidableEq

/-- recordState: a no-op while restoring or when the fresh snapshot
equals the top of the undo stack; otherwise push it, evict the oldest
entry past maxHistory, and clear the redo stack. -/
def recordState (app : App) : App :=
  if app.hist.isRestoring then app
  else
    let state := serialize app.ed
    if app.hist.undoStack.getLast? = some state then app
    else
      let u0 := app.hist.undoStack ++ [state]
      let u := if maxHistory < u0.length then u0.drop 1 else u0
      { app with hist := { app.hist with undoStack := u, redoStack := [] } }

/-- undo: a no-op with at most one entry (the baseline); otherwise pop
the top onto the redo stack and restore the new top via full
deserialize.  The restoring flag is raised for the duration of the
deserialize and lowered again, so it nets to false. -/
def undo (P : Registry) (fuel : Nat) (app : App) : App :=
  if app.hist.undoStack.length ≤ 1 then app
  else
    match app.hist.undoStack.getLast? with
    | none => app
    | some currentState =>
        let u := app.hist.undoStack.dropLast
        let r := app.hist.redoStack ++ [currentState]
        match u.getLast? with
        | none => { app with hist := ⟨u, r, false⟩ }
        | some prevState =>
            { ed := deserialize P fuel app.ed prevState, hist := ⟨u, r, false⟩ }

/-- redo: a no-op with an empty redo stack; otherwise pop its top, push
it back onto the undo stack and restore it via full deserialize. -/
def redo (P : Registry) (fuel : Nat) (app : App) : App :=
  match app.hist.redoStack.getLast? with
  | none => app
  | some nextState =>
      { ed := deserialize P fuel app.ed nextState,
        hist := ⟨app.hist.undoStack ++ [nextState], app.hist.redoStack.dropLast, false⟩ }

/-- One user edit followed by its (debounce-coalesced) history record:
the graph is replaced by the edited state and recordState runs. -/
def applyEdit (app : App) (edited : Editor) : App :=
  recordState { app with ed := edited }

/-- A sequence of edits, oldest first. -/
def applyEdits (app : App) (es : List Editor) : App :=
  es.foldl applyEdit app

/-- Acyclicity of the connection graph, witnessed by a rank function that
strictly decreases along every connection.  A finite directed graph is
acyclic exactly when such a rank exists (for instance the longest-path
rank); the rank also bounds the recursion depth of processNodeData. -/
def RankedAcyclic (ed : Editor) (h : String → Nat) : Prop :=
  ∀ c ∈ ed.connections, h c.«to».node < h c.«from».node

instance (ed : Editor) (h : String → Nat) : Decidable (RankedAcyclic ed h) :=
  inferInstanceAs (Decidable (∀ c ∈ ed.connections, h c.«to».node < h c.«from».node))

/-- Reachability along connections between existing nodes, as the
processNodeData cascade walks them: from a node in the table, following
connections whose destination is in the table. -/
inductive Reaches (ed : Editor) (a : String) : String → Prop where
  | refl (ha : ed.hasNode a = true) : Reaches ed a a
  | step {b : String} (c : Conn) (hr : Reaches ed a b) (hc : c ∈ ed.connections)
      (hfrom : c.«from».node = b) (hto : ed.hasNode c.«to».node = true) :
      Reaches ed a c.«to».node

/-! ### Concrete scenarios used by the closed theorems -/

/-- A condition-evaluation oracle that always fails, for scenarios whose
filter node is never exercised on a condition. -/
def evFail : CondEval := fun _ => .error "boom"

/-- A blank node record to build concrete editors from. -/
def blankNode (id type : String) : NodeData :=
  { id := id, type := type, x := 0, y := 0, width := "", height := "",
    fields := [], outputs := [], status := "", parentId := none, children := [] }

/-- Scenario B of the spec: an import node feeding
`[{cat:"x",v:"1"},{cat:"x",v:"2"},{cat:"y",v:"5"}]` into an aggregate
node with groupBy "cat", aggFunc "sum", aggKey "v". -/
def scenarioBRows : List Value :=
  [ .obj [("cat", .str "x"), ("v", .str "1")],
    .obj [("cat", .str "x"), ("v", .str "2")],
    .obj [("cat", .str "y"), ("v", .str "5")] ]

/-- The aggregate node of scenario B. -/
def scenarioBNode : NodeData :=
  { blankNode "node_1" "aggregate" with
    fields := [("groupBy", .str "cat"), ("aggFunc", .str "sum"), ("aggKey", .str "v")] }

/-- The editor of scenario B. -/
def scenarioBEditor : Editor :=
  { nodes :=
      [ { blankNode "node_0" "import" with
          fields := [("data_out", .str "")],
          outputs := [("data_out", .arr scenarioBRows)] },
        scenarioBNode ],
    connections := [⟨⟨"node_0", "data_out"⟩, ⟨"node_1", "data_in"⟩⟩],
    canvasOffset := (0, 0), scale := JNum.ofInt 1, nodeCounter := 2 }

/-- A one-node editor holding a text node whose textarea reads `s`. -/
def textEditor (s : String) : Editor :=
  { nodes :=
      [ { blankNode "node_0" "text" with
          x := 10, y := 20,
          fields := [("text_out", .str s)],
          outputs := [("text_out", .str s)] } ],
    connections := [], canvasOffset := (0, 0), scale := JNum.ofInt 1, nodeCounter := 1 }

/-- The editor of the C6 counterexample: a node of a type absent from the
registry wired into a filter node. -/
def mysteryEditor : Editor :=
  { nodes :=
      [ blankNode "node_U" "mystery",
        { blankNode "node_F" "filter" with fields := [("condition", .str "")] } ],
    connections := [⟨⟨"node_U", "out"⟩, ⟨"node_F", "data_in"⟩⟩],
    canvasOffset := (0, 0), scale := JNum.ofInt 1, nodeCounter := 0 }

/-- The app state after the editor start-up recorded the initial blank
text-node graph as the history baseline. -/
def baselineApp : App :=
  { ed := textEditor "", hist := ⟨[serialize (textEditor "")], [], false⟩ }

/-- A JSON.parse oracle for the C8 scenario: the text `{}` parses to an
object with none of the session fields, anything else fails to parse. -/
def parseEmptyObject : JsonParse :=
  fun s => if s == "\x7b\x7d" then some ⟨none, none, none, none, none⟩ else none

/-- The two-node chain used by the C1 and C2 witnesses. -/
def chainEditor : Editor :=
  { nodes := [ { blankNode "node_A" "import" with fields := [("data_out", .str "")] },
               { blankNode "node_B" "filter" with fields := [("condition", .str "")] } ],
    connections := [⟨⟨"node_A", "data_out"⟩, ⟨"node_B", "data_in"⟩⟩],
    canvasOffset := (0, 0), scale := JNum.ofInt 1, nodeCounter := 0 }

/-- A rank function for `chainEditor`. -/
def chainRank : String → Nat := fun id => if id == "node_A" then 1 else 0

/-- A rank function for `mysteryEditor`. -/
def mysteryRank : String → Nat := fun id => if id == "node_U" then 1 else 0

/-- The filter node of the C7 witness scenario, holding a syntactically
invalid condition. -/
def filterNodeF : NodeData :=
  { blankNode "node_F" "filter" with fields := [("condition", .str "row.x >")] }

/-- The editor of the C7 witness scenario: an import node with an empty
array output feeding the broken filter node. -/
def filterEditor : Editor :=
  { nodes :=
      [ { blankNode "node_0" "import" with
          fields := [("data_out", .str "")], outputs := [("data_out", .arr [])] },
        filterNodeF ],
    connections := [⟨⟨"node_0", "data_out"⟩, ⟨"node_F", "data_in"⟩⟩],
    canvasOffset := (0, 0), scale := JNum.ofInt 1, nodeCounter := 0 }

/-- The left input of the C10 witness scenario. -/
def mergeLeftRows : List Value :=
  [ .obj [("id", .str "1"), ("a", .str "L1")],
    .obj [("id", .str "2"), ("a", .str "L2")] ]

/-- The right input of the C10 witness scenario. -/
def mergeRightRows : List Value :=
  [ .obj [("id", .str "2"), ("b", .str "R2"), ("a", .str "RA")] ]

/-- The merge node of the C10 witness scenario. -/
def mergeNodeM : NodeData :=
  { blankNode "node_2" "merge" with fields := [("key", .str "id")] }

/-- The editor of the C10 witness scenario: two import nodes feeding a
merge node joining on "id". -/
def mergeEditor : Editor :=
  { nodes :=
      [ { blankNode "node_0" "import" with
          fields := [("data_out", .str "")],
          outputs := [("data_out", .arr mergeLeftRows)] },
        { blankNode "node_1" "import" with
          fields := [("data_out", .str "")],
          outputs := [("data_out", .arr mergeRightRows)] },
        mergeNodeM ],
    connections := [⟨⟨"node_0", "data_out"⟩, ⟨"node_2", "data_in_1"⟩⟩,
                    ⟨⟨"node_1", "data_out"⟩, ⟨"node_2", "data_in_2"⟩⟩],
    canvasOffset := (0, 0), scale := JNum.ofInt 1, nodeCounter := 3 }

/-- An app whose undo stack is full (at maxHistory) and whose current
graph differs from the stack top, for the eviction witness. -/
def fullHistoryApp : App :=
  { ed := textEditor "x",
    hist := ⟨List.replicate maxHistory (serialize (textEditor "")), [], false⟩ }

/-- Edit E1 of the C4 run: type "hello" into the text node, recorded. -/
def c4App1 : App := applyEdit baselineApp (textEditor "hello")

/-- Edit E2 of the C4 run: replace the text with "world", recorded. -/
def c4App2 : App := applyEdit c4App1 (textEditor "world")

/-- The C4 run after one undo. -/
def c4AppUndo : App := undo (nodeProcessors evFail) 3 c4App2

/-- The C4 run after the undo and one redo. -/
def c4AppRedo : App := redo (nodeProcessors evFail) 3 c4AppUndo

/-! ### Frame lemmas: propagation never touches the connection list or
the set of node ids, and a processor write touches one node only -/

theorem setNodeMut_connections (ed : Editor) (nodeId : String) (m : NodeMut) :
    (ed.setNodeMut nodeId m).connections = ed.connections := rfl

theorem applyMut_mutOf (nd : NodeData) : nd.applyMut nd.mutOf = nd := rfl

theorem applyMut_id (nd : NodeData) (m : NodeMut) : (nd.applyMut m).id = nd.id := rfl

theorem setNodeMut_ids (ed : Editor) (nodeId : String) (m : NodeMut) :
    (ed.setNodeMut nodeId m).nodes.map (fun nd => nd.id) =
      ed.nodes.map (fun nd => nd.id) := by
  show (ed.nodes.map _).map _ = _
  induction ed.nodes with
  | nil => rfl
  | cons nd nds ih =>
      simp only [List.map_cons, ih, List.cons.injEq, and_true]
      by_cases hx : (nd.id == nodeId) = true
      · rw [if_pos hx, applyMut_id]
      · rw [if_neg hx]

theorem findNode_setNodeMut_ne (ed : Editor) (nodeId : String) (m : NodeMut)
    (x : String) (hx : x ≠ nodeId) :
    (ed.setNodeMut nodeId m).findNode x = ed.findNode x := by
  simp only [Editor.findNode, Editor.setNodeMut]
  induction ed.nodes with
  | nil => rfl
  | cons nd nds ih =>
      simp only [List.map_cons, List.find?_cons]
      by_cases h1 : (nd.id == nodeId) = true
      · have hne : (nd.id == x) = false := by
          rw [beq_eq_false_iff_ne]
          intro he
          exact hx (he ▸ eq_of_beq h1)
        rw [if_pos h1]
        simp only [List.find?_cons, applyMut_id, hne]
        exact ih
      · rw [if_neg h1]
        by_cases h2 : (nd.id == x) = true
        · simp only [h2]
        · simp only [Bool.not_eq_true] at h2
          simp only [h2]
          exact ih

theorem findNode_setNodeMut_self (ed : Editor) (nodeId : String) (m : NodeMut)
    (nd : NodeData) (hf : ed.findNode nodeId = some nd) :
    (ed.setNodeMut nodeId m).findNode nodeId = some (nd.applyMut m) := by
  simp only [Editor.findNode, Editor.setNodeMut] at hf ⊢
  revert hf
  induction ed.nodes with
  | nil => intro hf; exact Option.noConfusion hf
  | cons a as ih =>
      intro hf
      simp only [List.map_cons, List.find?_cons]
      simp only [List.find?_cons] at hf
      by_cases h1 : (a.id == nodeId) = true
      · simp only [h1] at hf
        have ha : a = nd := by injection hf
        subst ha
        rw [if_pos h1]
        simp only [applyMut_id, h1]
      · simp only [Bool.not_eq_true] at h1
        simp only [h1] at hf
        rw [if_neg (by rw [h1]; exact Bool.false_ne_true)]
        simp only [h1]
        exact ih hf

theorem any_beq_of_map_ids (xs : List NodeData) (n : String) :
    xs.any (fun nd => nd.id == n) = (xs.map (fun nd => nd.id)).any (fun i => i == n) := by
  induction xs with
  | nil => rfl
  | cons a as ih => simp only [List.any_cons, List.map_cons, ih]

theorem hasNode_eq_of_ids_eq (ed ed' : Editor)
    (hids : ed'.nodes.map (fun nd => nd.id) = ed.nodes.map (fun nd => nd.id))
    (n : String) : ed'.hasNode n = ed.hasNode n := by
  show ed'.nodes.any _ = ed.nodes.any _
  rw [any_beq_of_map_ids, any_beq_of_map_ids, hids]

theorem RankedAcyclic_of_connections_eq {ed ed' : Editor} {h : String → Nat}
    (hc : ed'.connections = ed.connections) (hra : RankedAcyclic ed h) :
    RankedAcyclic ed' h := by
  intro c hmem
  exact hra c (hc ▸ hmem)

theorem runConns_connections (step : Editor → String → Editor × List String × Bool)
    (hstep : ∀ ed n, (step ed n).1.connections = ed.connections) :
    ∀ (cs : List Conn) (ed : Editor) (n : String),
      (runConns step cs ed n).1.connections = ed.connections := by
  intro cs
  induction cs with
  | nil => intro ed n; rfl
  | cons c cs ih =>
      intro ed n
      rw [runConns]
      by_cases hc : (c.«from».node == n) = true
      · rw [if_pos hc]
        cases hok : (step ed c.«to».node).2.2 with
        | false =>
            rw [if_neg (by rw [hok]; exact Bool.false_ne_true)]
            exact hstep ed c.«to».node
        | true =>
            rw [if_pos (by rw [hok])]
            dsimp only
            rw [ih, hstep]
      · rw [if_neg hc]
        exact ih ed n

theorem processNodeData_connections (P : Registry) :
    ∀ (fuel : Nat) (ed : Editor) (n : String),
      (processNodeData P fuel ed n).1.connections = ed.connections := by
  intro fuel
  induction fuel with
  | zero => intro ed n; rfl
  | succ fuel ih =>
      intro ed n
      rw [processNodeData]
      cases hf : ed.findNode n with
      | none => rfl
      | some nd =>
          exact runConns_connections _ (fun e m => ih e m) _ _ _

theorem runConns_ids (step : Editor → String → Editor × List String × Bool)
    (hstep : ∀ ed n, (step ed n).1.nodes.map (fun nd => nd.id) =
      ed.nodes.map (fun nd => nd.id)) :
    ∀ (cs : List Conn) (ed : Editor) (n : String),
      (runConns step cs ed n).1.nodes.map (fun nd => nd.id) =
        ed.nodes.map (fun nd => nd.id) := by
  intro cs
  induction cs with
  | nil => intro ed n; rfl
  | cons c cs ih =>
      intro ed n
      rw [runConns]
      by_cases hc : (c.«from».node == n) = true
      · rw [if_pos hc]
        cases hok : (step ed c.«to».node).2.2 with
        | false =>
            rw [if_neg (by rw [hok]; exact Bool.false_ne_true)]
            exact hstep ed c.«to».node
        | true =>
            rw [if_pos (by rw [hok])]
            dsimp only
            rw [ih, hstep]
      · rw [if_neg hc]
        exact ih ed n

theorem processNodeData_ids (P : Registry) :
    ∀ (fuel : Nat) (ed : Editor) (n : String),
      (processNodeData P fuel ed n).1.nodes.map (fun nd => nd.id) =
        ed.nodes.map (fun nd => nd.id) := by
  intro fuel
  induction fuel with
  | zero => intro ed n; rfl
  | succ fuel ih =>
      intro ed n
      rw [processNodeData]
      cases hf : ed.findNode n with
      | none => rfl
      | some nd =>
          exact (runConns_ids _ (fun e m => ih e m) _ _ _).trans
            (setNodeMut_ids ed n (runProcessor P ed nd))

theorem processNodeData_hasNode (P : Registry) (fuel : Nat) (ed : Editor) (n m : String) :
    (processNodeData P fuel ed n).1.hasNode m = ed.hasNode m :=
  hasNode_eq_of_ids_eq ed _ (processNodeData_ids P fuel ed n) m

/-! ### Termination and coverage of the cascade on rank-acyclic graphs -/

theorem findNode_isSome_of_hasNode {ed : Editor} {n : String}
    (hn : ed.hasNode n = true) : ∃ nd, ed.findNode n = some nd := by
  have h1 : ∃ x ∈ ed.nodes, (x.id == n) = true := List.any_eq_true.mp hn
  have h2 : (ed.nodes.find? (fun nd => nd.id == n)).isSome = true :=
    List.find?_isSome.mpr h1
  exact Option.isSome_iff_exists.mp h2

theorem runConns_ok (step : Editor → String → Editor × List String × Bool)
    (h : String → Nat) (B : Nat)
    (hconn : ∀ ed n, (step ed n).1.connections = ed.connections)
    (hok : ∀ ed n, RankedAcyclic ed h → h n < B → (step ed n).2.2 = true) :
    ∀ (cs : List Conn) (ed : Editor) (n : String),
      RankedAcyclic ed h → (∀ c ∈ cs, c ∈ ed.connections) → h n ≤ B →
      (runConns step cs ed n).2.2 = true := by
  intro cs
  induction cs with
  | nil => intro ed n _ _ _; rfl
  | cons c cs ih =>
      intro ed n hra hcs hn
      rw [runConns]
      by_cases hc : (c.«from».node == n) = true
      · rw [if_pos hc]
        have hcmem : c ∈ ed.connections := hcs c (List.mem_cons_self c cs)
        have hrank : h c.«to».node < B := by
          have hlt := hra c hcmem
          have heq : c.«from».node = n := eq_of_beq hc
          rw [heq] at hlt
          exact Nat.lt_of_lt_of_le hlt hn
        have hok1 : (step ed c.«to».node).2.2 = true := hok ed _ hra hrank
        rw [if_pos hok1]
        dsimp only
        apply ih
        · exact RankedAcyclic_of_connections_eq (hconn ed _) hra
        · intro c' hc'
          rw [hconn]
          exact hcs c' (List.mem_cons_of_mem c hc')
        · exact hn
      · rw [if_neg hc]
        exact ih ed n hra (fun c' hc' => hcs c' (List.mem_cons_of_mem c hc')) hn

theorem processNodeData_ok (P : Registry) (h : String → Nat) :
    ∀ (fuel : Nat) (ed : Editor) (n : String),
      RankedAcyclic ed h → h n < fuel →
      (processNodeData P fuel ed n).2.2 = true := by
  intro fuel
  induction fuel with
  | zero => intro ed n _ hk; exact absurd hk (Nat.not_lt_zero _)
  | succ fuel ih =>
      intro ed n hra hn
      rw [processNodeData]
      cases hf : ed.findNode n with
      | none => rfl
      | some nd =>
          dsimp only
          apply runConns_ok (processNodeData P fuel) h fuel
            (fun e m => processNodeData_connections P fuel e m)
            (fun e m hra2 hlt => ih e m hra2 hlt)
          · exact RankedAcyclic_of_connections_eq rfl hra
          · intro c hc
            exact hc
          · exact Nat.lt_succ_iff.mp hn

theorem processNodeData_self_mem (P : Registry) (fuel : Nat) (ed : Editor) (n : String)
    (hn : ed.hasNode n = true) (hfuel : 0 < fuel) :
    n ∈ (processNodeData P fuel ed n).2.1 := by
  cases fuel with
  | zero => exact absurd hfuel (by omega)
  | succ fuel =>
      rw [processNodeData]
      obtain ⟨nd, hnd⟩ := findNode_isSome_of_hasNode hn
      rw [hnd]
      exact List.mem_cons_self n _

theorem runConns_succ_mem (step : Editor → String → Editor × List String × Bool)
    (h : String → Nat) (B : Nat)
    (hconn : ∀ ed n, (step ed n).1.connections = ed.connections)
    (hids : ∀ ed n, (step ed n).1.nodes.map (fun nd => nd.id) =
      ed.nodes.map (fun nd => nd.id))
    (hok : ∀ ed n, RankedAcyclic ed h → h n < B → (step ed n).2.2 = true)
    (hself : ∀ ed n, ed.hasNode n = true → 0 < B → n ∈ (step ed n).2.1) :
    ∀ (cs : List Conn) (ed : Editor) (n : String),
      RankedAcyclic ed h → (∀ c ∈ cs, c ∈ ed.connections) → h n ≤ B →
      ∀ c ∈ cs, c.«from».node = n → ed.hasNode c.«to».node = true →
        c.«to».node ∈ (runConns step cs ed n).2.1 := by
  intro cs
  induction cs with
  | nil => intro ed n _ _ _ c hc; exact absurd hc (List.not_mem_nil c)
  | cons c0 cs ih =>
      intro ed n hra hcs hn c hc hfrom hto
      rw [runConns]
      by_cases hc0 : (c0.«from».node == n) = true
      · rw [if_pos hc0]
        have hc0mem : c0 ∈ ed.connections := hcs c0 (List.mem_cons_self c0 cs)
        have hrank : h c0.«to».node < B := by
          have hlt := hra c0 hc0mem
          have heq : c0.«from».node = n := eq_of_beq hc0
          rw [heq] at hlt
          exact Nat.lt_of_lt_of_le hlt hn
        have hok1 : (step ed c0.«to».node).2.2 = true := hok ed _ hra hrank
        rw [if_pos hok1]
        dsimp only
        rcases List.mem_cons.mp hc with hceq | hcs2
        · subst hceq
          refine List.mem_append_left _ ?_
          exact hself ed c.«to».node hto (Nat.lt_of_le_of_lt (Nat.zero_le _) hrank)
        · refine List.mem_append_right _ ?_
          apply ih (step ed c0.«to».node).1 n
          · exact RankedAcyclic_of_connections_eq (hconn ed _) hra
          · intro c' hc'
            rw [hconn]
            exact hcs c' (List.mem_cons_of_mem c0 hc')
          · exact hn
          · exact hcs2
          · exact hfrom
          · rw [hasNode_eq_of_ids_eq ed _ (hids ed c0.«to».node)]
            exact hto
      · rw [if_neg hc0]
        rcases List.mem_cons.mp hc with hceq | hcs2
        · rw [hceq] at hfrom
          exact absurd (show (c0.«from».node == n) = true from by
            rw [hfrom]; exact beq_self_eq_true n) hc0
        · exact ih ed n hra (fun c' hc' => hcs c' (List.mem_cons_of_mem c0 hc')) hn
            c hcs2 hfrom hto

theorem runConns_closed (step : Editor → String → Editor × List String × Bool)
    (h : String → Nat) (B : Nat)
    (hconn : ∀ ed n, (step ed n).1.connections = ed.connections)
    (hids : ∀ ed n, (step ed n).1.nodes.map (fun nd => nd.id) =
      ed.nodes.map (fun nd => nd.id))
    (hok : ∀ ed n, RankedAcyclic ed h → h n < B → (step ed n).2.2 = true)
    (hclosed : ∀ ed n, RankedAcyclic ed h → h n < B →
      ∀ x ∈ (step ed n).2.1, ∀ c ∈ ed.connections, c.«from».node = x →
        ed.hasNode c.«to».node = true → c.«to».node ∈ (step ed n).2.1) :
    ∀ (cs : List Conn) (ed : Editor) (n : String),
      RankedAcyclic ed h → (∀ c ∈ cs, c ∈ ed.connections) → h n ≤ B →
      ∀ x ∈ (runConns step cs ed n).2.1,
        ∀ c ∈ ed.connections, c.«from».node = x → ed.hasNode c.«to».node = true →
          c.«to».node ∈ (runConns step cs ed n).2.1 := by
  intro cs
  induction cs with
  | nil => intro ed n _ _ _ x hx; exact absurd hx (List.not_mem_nil x)
  | cons c0 cs ih =>
      intro ed n hra hcs hn x hx c hc hfrom hto
      rw [runConns] at hx ⊢
      by_cases hc0 : (c0.«from».node == n) = true
      · rw [if_pos hc0] at hx ⊢
        have hc0mem : c0 ∈ ed.connections := hcs c0 (List.mem_cons_self c0 cs)
        have hrank : h c0.«to».node < B := by
          have hlt := hra c0 hc0mem
          have heq : c0.«from».node = n := eq_of_beq hc0
          rw [heq] at hlt
          exact Nat.lt_of_lt_of_le hlt hn
        have hok1 : (step ed c0.«to».node).2.2 = true := hok ed _ hra hrank
        rw [if_pos hok1] at hx ⊢
        dsimp only at hx ⊢
        rcases List.mem_append.mp hx with hx1 | hx2
        · exact List.mem_append_left _
            (hclosed ed c0.«to».node hra hrank x hx1 c hc hfrom hto)
        · refine List.mem_append_right _ ?_
          apply ih (step ed c0.«to».node).1 n
          · exact RankedAcyclic_of_connections_eq (hconn ed _) hra
          · intro c' hc'
            rw [hconn]
            exact hcs c' (List.mem_cons_of_mem c0 hc')
          · exact hn
          · exact hx2
          · rw [hconn]
            exact hc
          · exact hfrom
          · rw [hasNode_eq_of_ids_eq ed _ (hids ed c0.«to».node)]
            exact hto
      · rw [if_neg hc0] at hx ⊢
        exact ih ed n hra (fun c' hc' => hcs c' (List.mem_cons_of_mem c0 hc')) hn
          x hx c hc hfrom hto

theorem processNodeData_closed (P : Registry) (h : String → Nat) :
    ∀ (fuel : Nat) (ed : Editor) (n : String),
      RankedAcyclic ed h → h n < fuel →
      ∀ x ∈ (processNodeData P fuel ed n).2.1,
        ∀ c ∈ ed.connections, c.«from».node = x → ed.hasNode c.«to».node = true →
          c.«to».node ∈ (processNodeData P fuel ed n).2.1 := by
  intro fuel
  induction fuel with
  | zero => intro ed n _ hk; exact absurd hk (Nat.not_lt_zero _)
  | succ fuel ih =>
      intro ed n hra hn
      rw [processNodeData]
      cases hf : ed.findNode n with
      | none => intro x hx; exact absurd hx (List.not_mem_nil x)
      | some nd =>
          dsimp only
          intro x hx c hc hfrom hto
          have hedc : (ed.setNodeMut n (runProcessor P ed nd)).connections =
            ed.connections := rfl
          have hedid := setNodeMut_ids ed n (runProcessor P ed nd)
          rcases List.mem_cons.mp hx with hxn | hxl
          · subst hxn
            refine List.mem_cons_of_mem _ ?_
            apply runConns_succ_mem (processNodeData P fuel) h fuel
              (fun e m => processNodeData_connections P fuel e m)
              (fun e m => processNodeData_ids P fuel e m)
              (fun e m hra2 hlt => processNodeData_ok P h fuel e m hra2 hlt)
              (fun e m hm hB => processNodeData_self_mem P fuel e m hm hB)
            · exact RankedAcyclic_of_connections_eq hedc hra
            · intro c' hc'
              exact hc'
            · exact Nat.lt_succ_iff.mp hn
            · exact hc
            · exact hfrom
            · rw [hasNode_eq_of_ids_eq ed _ hedid]
              exact hto
          · refine List.mem_cons_of_mem _ ?_
            apply runConns_closed (processNodeData P fuel) h fuel
              (fun e m => processNodeData_connections P fuel e m)
              (fun e m => processNodeData_ids P fuel e m)
              (fun e m hra2 hlt => processNodeData_ok P h fuel e m hra2 hlt)
              (fun e m hra2 hlt => ih e m hra2 hlt)
            · exact RankedAcyclic_of_connections_eq hedc hra
            · intro c' hc'
              exact hc'
            · exact Nat.lt_succ_iff.mp hn
            · exact hxl
            · exact hc
            · exact hfrom
            · rw [hasNode_eq_of_ids_eq ed _ hedid]
              exact hto

theorem processNodeData_reaches_mem (P : Registry) (h : String → Nat)
    (fuel : Nat) (ed : Editor) (root : String)
    (hra : RankedAcyclic ed h) (hfuel : h root < fuel) :
    ∀ m, Reaches ed root m → m ∈ (processNodeData P fuel ed root).2.1 := by
  intro m hm
  induction hm with
  | refl ha =>
      exact processNodeData_self_mem P fuel ed root ha
        (Nat.lt_of_le_of_lt (Nat.zero_le _) hfuel)
  | step c hr hc hfrom hto ih =>
      exact processNodeData_closed P h fuel ed root hra hfuel _ ih c hc hfrom hto

/-! ### Nodes above the start of a cascade are never rewritten -/

theorem runConns_untouched (step : Editor → String → Editor × List String × Bool)
    (h : String → Nat)
    (hconn : ∀ ed n, (step ed n).1.connections = ed.connections)
    (huntouched : ∀ ed n m, RankedAcyclic ed h → h n < h m →
      (step ed n).1.findNode m = ed.findNode m) :
    ∀ (cs : List Conn) (ed : Editor) (n m : String),
      RankedAcyclic ed h → (∀ c ∈ cs, c ∈ ed.connections) → h n ≤ h m →
      (runConns step cs ed n).1.findNode m = ed.findNode m := by
  intro cs
  induction cs with
  | nil => intro ed n m _ _ _; rfl
  | cons c0 cs ih =>
      intro ed n m hra hcs hn
      rw [runConns]
      by_cases hc0 : (c0.«from».node == n) = true
      · rw [if_pos hc0]
        have hc0mem : c0 ∈ ed.connections := hcs c0 (List.mem_cons_self c0 cs)
        have hrank : h c0.«to».node < h m := by
          have hlt := hra c0 hc0mem
          have heq : c0.«from».node = n := eq_of_beq hc0
          rw [heq] at hlt
          exact Nat.lt_of_lt_of_le hlt hn
        have hstep1 : (step ed c0.«to».node).1.findNode m = ed.findNode m :=
          huntouched ed c0.«to».node m hra hrank
        cases hok : (step ed c0.«to».node).2.2 with
        | false =>
            rw [if_neg (by rw [hok]; exact Bool.false_ne_true)]
            exact hstep1
        | true =>
            rw [if_pos hok]
            dsimp only
            rw [ih (step ed c0.«to».node).1 n m
              (RankedAcyclic_of_connections_eq (hconn ed _) hra)
              (fun c' hc' => by
                rw [hconn]
                exact hcs c' (List.mem_cons_of_mem c0 hc'))
              hn]
            exact hstep1
      · rw [if_neg hc0]
        exact ih ed n m hra (fun c' hc' => hcs c' (List.mem_cons_of_mem c0 hc')) hn

theorem processNodeData_untouched (P : Registry) (h : String → Nat) :
    ∀ (fuel : Nat) (ed : Editor) (n m : String),
      RankedAcyclic ed h → h n < h m →
      (processNodeData P fuel ed n).1.findNode m = ed.findNode m := by
  intro fuel
  induction fuel with
  | zero => intro ed n m _ _; rfl
  | succ fuel ih =>
      intro ed n m hra hlt
      rw [processNodeData]
      cases hf : ed.findNode n with
      | none => rfl
      | some nd =>
          dsimp only
          have hmn : m ≠ n := by
            intro he
            rw [he] at hlt
            exact Nat.lt_irrefl _ hlt
          have hr1 := runConns_untouched (processNodeData P fuel) h
            (fun e k => processNodeData_connections P fuel e k)
            (fun e k l hra2 hlt2 => ih e k l hra2 hlt2)
            (ed.setNodeMut n (runProcessor P ed nd)).connections
            (ed.setNodeMut n (runProcessor P ed nd)) n m
            (RankedAcyclic_of_connections_eq rfl hra)
            (fun c' hc' => hc')
            (Nat.le_of_lt hlt)
          rw [hr1]
          exact findNode_setNodeMut_ne ed n _ m hmn

/-! ### Object property lemmas -/

theorem mem_of_getLast?_eq_some {α : Type} {l : List α} {a : α}
    (h : l.getLast? = some a) : a ∈ l := by
  rcases List.mem_getLast?_eq_getLast (show a ∈ l.getLast? from by rw [h]; rfl) with
    ⟨hne, heq⟩
  rw [heq]
  exact List.getLast_mem hne

theorem getProp_map_setKey_self (k : String) (v : Value) :
    ∀ (fs : List (String × Value)), fs.any (fun kv => kv.1 == k) = true →
      getProp (fs.map (fun kv => if kv.1 == k then (k, v) else kv)) k = some v := by
  intro fs
  induction fs with
  | nil => intro hany; exact Bool.noConfusion hany
  | cons p ps ih =>
      intro hany
      rw [List.any_cons, Bool.or_eq_true] at hany
      by_cases hp : (p.1 == k) = true
      · simp only [List.map_cons, if_pos hp, getProp, List.find?_cons, beq_self_eq_true]
        rfl
      · have hps : ps.any (fun kv => kv.1 == k) = true := by
          rcases hany with h1 | h2
          · exact absurd h1 hp
          · exact h2
        simp only [List.map_cons, if_neg hp, getProp, List.find?_cons]
        simp only [Bool.not_eq_true] at hp
        simp only [hp]
        exact ih hps

theorem getProp_setProp_self (fs : List (String × Value)) (k : String) (v : Value) :
    getProp (setProp fs k v) k = some v := by
  rw [setProp]
  by_cases hany : fs.any (fun kv => kv.1 == k) = true
  · rw [if_pos hany]
    exact getProp_map_setKey_self k v fs hany
  · rw [if_neg hany]
    have hnone : fs.find? (fun kv => kv.1 == k) = none := List.find?_eq_none.mpr (by
      intro x hx hpx
      exact hany (List.any_eq_true.mpr ⟨x, hx, hpx⟩))
    simp only [getProp, List.find?_append, hnone, Option.none_or, List.find?_cons,
      beq_self_eq_true]
    rfl

theorem getProp_setProp_ne (fs : List (String × Value)) (k : String) (v : Value)
    (x : String) (hx : x ≠ k) :
    getProp (setProp fs k v) x = getProp fs x := by
  rw [setProp]
  have hxk : (k == x) = false := by
    rw [beq_eq_false_iff_ne]
    intro he
    exact hx he.symm
  by_cases hany : fs.any (fun kv => kv.1 == k) = true
  · rw [if_pos hany]
    clear hany
    induction fs with
    | nil => rfl
    | cons p ps ih =>
        by_cases hp : (p.1 == k) = true
        · have hpx : (p.1 == x) = false := by
            rw [beq_eq_false_iff_ne]
            intro he
            exact hx ((eq_of_beq hp) ▸ he).symm
          simp only [List.map_cons, if_pos hp, getProp, List.find?_cons, hxk, hpx]
          exact ih
        · simp only [List.map_cons, if_neg hp, getProp, List.find?_cons]
          by_cases hq : (p.1 == x) = true
          · simp only [hq]
          · simp only [Bool.not_eq_true] at hq
            simp only [hq]
            exact ih
  · rw [if_neg hany]
    simp only [getProp, List.find?_append, List.find?_cons, hxk]
    cases hfs : fs.find? (fun kv => kv.1 == x) with
    | none => rfl
    | some p => rfl

theorem getProp_spread_of_none (b : List (String × Value)) :
    ∀ (a : List (String × Value)) (k : String), getProp b k = none →
      getProp (spread a b) k = getProp a k := by
  induction b with
  | nil => intro a k _; rfl
  | cons p ps ih =>
      intro a k hb
      have hcons : (p.1 == k) = false ∧ getProp ps k = none := by
        by_cases hp : (p.1 == k) = true
        · exfalso
          simp only [getProp, List.find?_cons, hp] at hb
          exact Option.noConfusion hb
        · constructor
          · rw [Bool.not_eq_true] at hp
            exact hp
          · simp only [Bool.not_eq_true] at hp
            simp only [getProp, List.find?_cons, hp] at hb
            exact hb
      show getProp (spread (setProp a p.1 p.2) ps) k = getProp a k
      rw [ih _ k hcons.2, getProp_setProp_ne]
      intro he
      have hcontra := hcons.1
      rw [he, beq_self_eq_true] at hcontra
      exact Bool.noConfusion hcontra

theorem getProp_eq_none_of_keys (bs : List (String × Value)) (k : String)
    (hk : ∀ p ∈ bs, p.1 ≠ k) : getProp bs k = none := by
  simp only [getProp]
  rw [List.find?_eq_none.mpr]
  · rfl
  · intro x hx hpx
    exact hk x hx (eq_of_beq hpx)

theorem getProp_spread_of_some (b : List (String × Value)) :
    ∀ (a : List (String × Value)) (k : String) (v : Value),
      (b.map Prod.fst).Nodup → getProp b k = some v →
      getProp (spread a b) k = some v := by
  induction b with
  | nil => intro a k v _ hb; exact Option.noConfusion hb
  | cons p ps ih =>
      intro a k v hnd hb
      rw [List.map_cons, List.nodup_cons] at hnd
      show getProp (spread (setProp a p.1 p.2) ps) k = some v
      by_cases hp : (p.1 == k) = true
      · have hpk : p.1 = k := eq_of_beq hp
        have hv : v = p.2 := by
          simp only [getProp, List.find?_cons, hp] at hb
          exact (Option.some.injEq _ _ ▸ hb).symm ▸ rfl
        have hnone : getProp ps k = none := by
          apply getProp_eq_none_of_keys
          intro q hq he
          exact hnd.1 (hpk ▸ he ▸ List.mem_map.mpr ⟨q, hq, rfl⟩)
        rw [getProp_spread_of_none ps _ k hnone, hpk, getProp_setProp_self, hv]
      · simp only [Bool.not_eq_true] at hp
        simp only [getProp, List.find?_cons, hp] at hb
        exact ih _ k v hnd.2 hb

theorem rowProp_eq_getProp_objFieldsOf (r : Value) (k : String) :
    rowProp r k = getProp (objFieldsOf r) k := by
  cases r <;> rfl

theorem hasNode_of_findNode {ed : Editor} {n : String} {nd : NodeData}
    (hf : ed.findNode n = some nd) : ed.hasNode n = true := by
  simp only [Editor.findNode] at hf
  have hmem : nd ∈ ed.nodes := List.mem_of_find?_eq_some hf
  have hp := List.find?_some hf
  exact List.any_eq_true.mpr ⟨nd, hmem, hp⟩

/-! ### The claims -/

/-- C1: for every processor registry, every graph acyclic along its
connections (witnessed by a rank function that strictly decreases along
every connection, which exists exactly for the acyclic finite graphs) and
every root node, propagate — processNodeData(root) — terminates: with any
stack budget exceeding the root's rank the recursion completes without
exhausting it; and every node reachable from root via connections is
processed at least once (its processNodeData body runs, so its processor
is looked up and invoked when registered). -/
theorem c1_propagate_terminates_and_visits (P : Registry) (ed : Editor)
    (root : String) (h : String → Nat) (fuel : Nat)
    (hra : RankedAcyclic ed h) (hfuel : h root < fuel) :
    (processNodeData P fuel ed root).2.2 = true ∧
    ∀ m, Reaches ed root m → m ∈ (processNodeData P fuel ed root).2.1 :=
  ⟨processNodeData_ok P h fuel ed root hra hfuel,
   processNodeData_reaches_mem P h fuel ed root hra hfuel⟩

/-- Witness for C1 on the two-node chain: the walk from node_A completes
and the downstream node_B is processed. -/
theorem c1_witness :
    (processNodeData (nodeProcessors evFail) 3 chainEditor "node_A").2.2 = true ∧
    "node_B" ∈ (processNodeData (nodeProcessors evFail) 3 chainEditor "node_A").2.1 :=
  ⟨(c1_propagate_terminates_and_visits (nodeProcessors evFail) chainEditor "node_A"
      chainRank 3 (by decide) (by decide)).1,
   (c1_propagate_terminates_and_visits (nodeProcessors evFail) chainEditor "node_A"
      chainRank 3 (by decide) (by decide)).2 "node_B"
      (Reaches.step ⟨⟨"node_A", "data_out"⟩, ⟨"node_B", "data_in"⟩⟩
        (Reaches.refl (by decide)) (by decide) rfl (by decide))⟩

/-- C6 counterexample: propagating from a node whose type ("mystery") has
no registry entry is not a no-op — the downstream filter node's outputs
change from empty to a data_out binding, because processNodeData still
recurses into the outgoing connections after skipping the processor. -/
theorem c6_counterexample :
    (nodeProcessors evFail) "mystery" = none ∧
    (mysteryEditor.findNode "node_F").map (fun nd => nd.outputs) = some [] ∧
    ((processNodeData (nodeProcessors evFail) 3 mysteryEditor "node_U").1.findNode
        "node_F").map (fun nd => nd.outputs) =
      some [("data_out", Value.arr [])] := by
  refine ⟨rfl, rfl, ?_⟩
  decide

/-- C6 (amended): on an acyclic graph, propagating from a node whose type
has no registry entry skips that node's processor — the node's own record
is unchanged after the call — but the cascade still recurses into its
outgoing connections, so every existing direct successor is processed. -/
theorem c6_unknown_type_skips_only_own_processor (P : Registry) (ed : Editor)
    (u : String) (nd : NodeData) (h : String → Nat) (fuel : Nat)
    (hP : P nd.type = none) (hfind : ed.findNode u = some nd)
    (hra : RankedAcyclic ed h) (hfuel : h u < fuel) :
    (processNodeData P fuel ed u).1.findNode u = some nd ∧
    ∀ c ∈ ed.connections, c.«from».node = u → ed.hasNode c.«to».node = true →
      c.«to».node ∈ (processNodeData P fuel ed u).2.1 := by
  constructor
  · cases fuel with
    | zero => exact absurd hfuel (Nat.not_lt_zero _)
    | succ fuel =>
        rw [processNodeData, hfind]
        dsimp only
        have hmut : runProcessor P ed nd = nd.mutOf := by rw [runProcessor, hP]
        rw [hmut]
        have h1 : (ed.setNodeMut u nd.mutOf).findNode u = some nd := by
          rw [findNode_setNodeMut_self ed u _ nd hfind, applyMut_mutOf]
        have h2 := runConns_untouched (processNodeData P fuel) h
          (fun e k => processNodeData_connections P fuel e k)
          (fun e k l hra2 hlt2 => processNodeData_untouched P h fuel e k l hra2 hlt2)
          (ed.setNodeMut u nd.mutOf).connections (ed.setNodeMut u nd.mutOf) u u
          (RankedAcyclic_of_connections_eq rfl hra)
          (fun c' hc' => hc') (Nat.le_refl _)
        rw [h2]
        exact h1
  · intro c hc hfrom hto
    exact processNodeData_closed P h fuel ed u hra hfuel u
      (processNodeData_self_mem P fuel ed u (hasNode_of_findNode hfind)
        (Nat.lt_of_le_of_lt (Nat.zero_le _) hfuel))
      c hc hfrom hto

/-- Witness for the amended C6 on the mystery/filter pair: the mystery
node's record is unchanged while its successor is processed. -/
theorem c6_witness :
    (processNodeData (nodeProcessors evFail) 3 mysteryEditor "node_U").1.findNode
        "node_U" = some (blankNode "node_U" "mystery") ∧
    "node_F" ∈ (processNodeData (nodeProcessors evFail) 3 mysteryEditor "node_U").2.1 :=
  ⟨(c6_unknown_type_skips_only_own_processor (nodeProcessors evFail) mysteryEditor
      "node_U" (blankNode "node_U" "mystery") mysteryRank 3 rfl (by decide)
      (by decide) (by decide)).1,
   (c6_unknown_type_skips_only_own_processor (nodeProcessors evFail) mysteryEditor
      "node_U" (blankNode "node_U" "mystery") mysteryRank 3 rfl (by decide)
      (by decide) (by decide)).2
      ⟨⟨"node_U", "out"⟩, ⟨"node_F", "data_in"⟩⟩ (by decide) rfl (by decide)⟩

/-- C2: completing a connection onto an input socket (for a non-self-loop,
the only case that completes) leaves exactly one connection targeting
that socket — the newly pushed one — and it is the most recently created
connection (the last of the list).  This holds after the full
completeConnection pipeline, since the subsequent re-propagation never
rewrites the connection list. -/
theorem c2_connection_replacement (P : Registry) (fuel : Nat) (ed : Editor)
    (start : Endpoint) (tn ts : String) (hne : start.node ≠ tn) :
    (completeConnection P fuel ed start tn ts).connections.filter
        (fun c => connectionTargets c tn ts) = [⟨start, ⟨tn, ts⟩⟩] ∧
    (completeConnection P fuel ed start tn ts).connections.getLast? =
      some ⟨start, ⟨tn, ts⟩⟩ := by
  have hbe : (start.node == tn) = false := by
    rw [beq_eq_false_iff_ne]; exact hne
  have hcc : (completeConnection P fuel ed start tn ts).connections =
      ed.connections.filter (fun c => !(connectionTargets c tn ts)) ++
        [⟨start, ⟨tn, ts⟩⟩] := by
    rw [completeConnection, if_neg (by rw [hbe]; exact Bool.false_ne_true)]
    exact processNodeData_connections P fuel _ tn
  have h0 : ed.connections.filter
      (fun a => connectionTargets a tn ts && !connectionTargets a tn ts) = [] := by
    induction ed.connections with
    | nil => rfl
    | cons c cs ih =>
        rw [List.filter_cons, if_neg (by rw [Bool.and_not_self]; exact Bool.false_ne_true)]
        exact ih
  have h1 : connectionTargets ⟨start, ⟨tn, ts⟩⟩ tn ts = true := by
    show (tn == tn && ts == ts) = true
    rw [beq_self_eq_true, beq_self_eq_true]
    rfl
  constructor
  · rw [hcc, List.filter_append, List.filter_filter, h0,
      List.filter_cons, if_pos h1]
    rfl
  · rw [hcc, List.getLast?_concat]

/-- Witness for C2 on the two-node chain editor. -/
theorem c2_witness :
    (completeConnection (nodeProcessors evFail) 3 chainEditor
        ⟨"node_A", "data_out"⟩ "node_B" "data_in").connections.filter
        (fun c => connectionTargets c "node_B" "data_in") =
      [⟨⟨"node_A", "data_out"⟩, ⟨"node_B", "data_in"⟩⟩] ∧
    (completeConnection (nodeProcessors evFail) 3 chainEditor
        ⟨"node_A", "data_out"⟩ "node_B" "data_in").connections.getLast? =
      some ⟨⟨"node_A", "data_out"⟩, ⟨"node_B", "data_in"⟩⟩ :=
  c2_connection_replacement (nodeProcessors evFail) 3 chainEditor
    ⟨"node_A", "data_out"⟩ "node_B" "data_in" (by decide)

theorem recordState_length_le (app : App)
    (hlen : app.hist.undoStack.length ≤ maxHistory) :
    (recordState app).hist.undoStack.length ≤ maxHistory := by
  rw [recordState]
  by_cases h1 : app.hist.isRestoring = true
  · rw [if_pos h1]; exact hlen
  · rw [if_neg h1]
    by_cases h2 : app.hist.undoStack.getLast? = some (serialize app.ed)
    · rw [if_pos h2]; exact hlen
    · rw [if_neg h2]
      dsimp only
      by_cases h3 : maxHistory < (app.hist.undoStack ++ [serialize app.ed]).length
      · rw [if_pos h3]
        rw [List.length_drop, List.length_append]
        simp only [List.length_singleton]
        omega
      · rw [if_neg h3]
        exact Nat.le_of_not_lt h3

theorem applyEdits_length_le : ∀ (es : List Editor) (app : App),
    app.hist.undoStack.length ≤ maxHistory →
    (applyEdits app es).hist.undoStack.length ≤ maxHistory := by
  intro es
  induction es with
  | nil => intro app hl; exact hl
  | cons e es ih =>
      intro app hl
      show (applyEdits (applyEdit app e) es).hist.undoStack.length ≤ maxHistory
      exact ih _ (recordState_length_le _ hl)

/-- C5: for any app whose undo stack is within the bound, any number of
recorded edits (any prefix of any edit sequence, so "never" along the
way) leaves the undo stack's length at most maxHistory = 50; and on
overflow — a record landing on a full stack with a genuinely new state —
the oldest entry (the head of the stack) is the one evicted. -/
theorem c5_history_bound_and_eviction :
    (∀ (app : App) (es : List Editor) (k : Nat),
        app.hist.undoStack.length ≤ maxHistory →
        (applyEdits app (es.take k)).hist.undoStack.length ≤ maxHistory) ∧
    (∀ app : App, app.hist.isRestoring = false →
        app.hist.undoStack.length = maxHistory →
        app.hist.undoStack.getLast? ≠ some (serialize app.ed) →
        (recordState app).hist.undoStack =
          app.hist.undoStack.drop 1 ++ [serialize app.ed]) := by
  constructor
  · intro app es k hl
    exact applyEdits_length_le (es.take k) app hl
  · intro app h1 h2 h3
    rw [recordState, if_neg (by rw [h1]; exact Bool.false_ne_true)]
    rw [if_neg h3]
    dsimp only
    have h4 : maxHistory < (app.hist.undoStack ++ [serialize app.ed]).length := by
      rw [List.length_append, h2]
      simp only [List.length_singleton]
      omega
    rw [if_pos h4]
    rw [@List.drop_append_of_le_length _ app.hist.undoStack [serialize app.ed] 1
      (by rw [h2]; exact Nat.one_le_iff_ne_zero.mpr (by rw [maxHistory]; omega))]

/-- Witness for C5: the bound on the baseline app, and the eviction step
on an app with a full undo stack. -/
theorem c5_witness :
    (applyEdits baselineApp ([].take 0)).hist.undoStack.length ≤ maxHistory ∧
    (recordState fullHistoryApp).hist.undoStack =
      fullHistoryApp.hist.undoStack.drop 1 ++ [serialize fullHistoryApp.ed] :=
  ⟨c5_history_bound_and_eviction.1 baselineApp [] 0 (by decide),
   c5_history_bound_and_eviction.2 fullHistoryApp rfl (by decide) (by decide)⟩

/-- C7: the filter processor is a total function — no exception escapes
it for any input array or condition text, the failure cases of the
expression evaluation and of the per-row calls included.  Whenever the
try-block's evaluation fails, the node's data_out output becomes the
empty array and the error message is recorded in the status of this node
only: the write leaves every other node of the editor untouched. -/
theorem c7_filter_error_contained (ev : CondEval) (ed : Editor) (nd : NodeData)
    (conn : Conn) (rows : List Value) (msg : String)
    (hconn : findInputConn ed nd.id "data_in" = some conn)
    (hdata : ed.getOutput conn.«from».node conn.«from».socket = some (Value.arr rows))
    (hcond : nd.fieldStr "condition" ≠ "")
    (herr : (match ev (nd.fieldStr "condition") with
             | Except.error e => Except.error e
             | Except.ok pred => jsFilter pred rows) = Except.error msg) :
    processFilterNode ev ed nd =
      ⟨nd.fields, setProp nd.outputs "data_out" (Value.arr []), "Error: " ++ msg⟩ ∧
    ∀ m, m ≠ nd.id →
      (ed.setNodeMut nd.id (processFilterNode ev ed nd)).findNode m = ed.findNode m := by
  have hbe : (nd.fieldStr "condition" == "") = false := by
    rw [beq_eq_false_iff_ne]; exact hcond
  constructor
  · simp only [processFilterNode, hconn, hdata, Option.getD_some]
    rw [if_neg (by rw [hbe]; exact Bool.false_ne_true)]
    rw [herr]
  · intro m hm
    exact findNode_setNodeMut_ne ed nd.id _ m hm

/-- Witness for C7: a filter node with a syntactically invalid condition,
under an evaluation oracle that fails with "boom". -/
theorem c7_witness :
    processFilterNode evFail filterEditor filterNodeF =
      ⟨filterNodeF.fields, setProp filterNodeF.outputs "data_out" (Value.arr []),
        "Error: " ++ "boom"⟩ ∧
    ∀ m, m ≠ filterNodeF.id →
      (filterEditor.setNodeMut filterNodeF.id
          (processFilterNode evFail filterEditor filterNodeF)).findNode m =
        filterEditor.findNode m :=
  c7_filter_error_contained evFail filterEditor filterNodeF
    ⟨⟨"node_0", "data_out"⟩, ⟨"node_F", "data_in"⟩⟩ [] "boom" rfl rfl (by decide) rfl

/-- C10: a merge node with both data inputs connected to array-valued
outputs and a non-empty join key produces exactly one output record per
record of the left input, in the left input's order: a left record whose
key value matches no right record passes through unchanged, and a
matched left record is spread-merged with the last matching right record,
whose fields override the left record's field for field. -/
theorem c10_merge_left_outer_join (ed : Editor) (nd : NodeData) (c1 c2 : Conn)
    (d1 d2 : List Value)
    (hc1 : findInputConn ed nd.id "data_in_1" = some c1)
    (hc2 : findInputConn ed nd.id "data_in_2" = some c2)
    (hk : nd.fieldStr "key" ≠ "")
    (hd1 : ed.getOutput c1.«from».node c1.«from».socket = some (Value.arr d1))
    (hd2 : ed.getOutput c2.«from».node c2.«from».socket = some (Value.arr d2)) :
    ∃ out : List Value,
      getProp (processMergeNode ed nd).outputs "data_out" = some (Value.arr out) ∧
      out.length = d1.length ∧
      (∀ (i : Nat) (l : Value), d1[i]? = some l →
        mapGetLast d2 (splitJoinKey (nd.fieldStr "key")).2
            (rowProp l (splitJoinKey (nd.fieldStr "key")).1) = none →
        out[i]? = some l) ∧
      (∀ (i : Nat) (l r : Value), d1[i]? = some l →
        mapGetLast d2 (splitJoinKey (nd.fieldStr "key")).2
            (rowProp l (splitJoinKey (nd.fieldStr "key")).1) = some r →
        r.truthy = true →
        out[i]? = some (spreadV l r) ∧ r ∈ d2 ∧
        (((objFieldsOf r).map Prod.fst).Nodup →
          ∀ k, rowProp (spreadV l r) k =
            match rowProp r k with
            | some v => some v
            | none => rowProp l k)) := by
  have hbe : (nd.fieldStr "key" == "") = false := by
    rw [beq_eq_false_iff_ne]; exact hk
  refine ⟨d1.map (fun item1 =>
      match mapGetLast d2 (splitJoinKey (nd.fieldStr "key")).2
          (rowProp item1 (splitJoinKey (nd.fieldStr "key")).1) with
      | some item2 => if item2.truthy then spreadV item1 item2 else item1
      | none => item1), ?_, ?_, ?_, ?_⟩
  · simp only [processMergeNode, hc1, hc2, hd1, hd2, Option.getD_some]
    rw [if_neg (by rw [hbe]; exact Bool.false_ne_true)]
    exact getProp_setProp_self _ _ _
  · exact List.length_map d1 _
  · intro i l hgl hnone
    rw [List.getElem?_map, hgl]
    simp only [Option.map_some']
    rw [hnone]
  · intro i l r hgl hsome htruthy
    refine ⟨?_, ?_, ?_⟩
    · rw [List.getElem?_map, hgl]
      simp only [Option.map_some']
      rw [hsome]
      simp only [htruthy, if_true]
    · exact List.mem_of_mem_filter (mem_of_getLast?_eq_some hsome)
    · intro hnd k
      show getProp (spread (objFieldsOf l) (objFieldsOf r)) k = _
      cases hr : rowProp r k with
      | none =>
          rw [rowProp_eq_getProp_objFieldsOf] at hr
          rw [getProp_spread_of_none _ _ _ hr,
            ← rowProp_eq_getProp_objFieldsOf]
      | some v =>
          rw [rowProp_eq_getProp_objFieldsOf] at hr
          rw [getProp_spread_of_some _ _ _ _ hnd hr]

/-- Witness for C10 on the concrete join of two import feeds on "id". -/
theorem c10_witness :
    ∃ out : List Value,
      getProp (processMergeNode mergeEditor mergeNodeM).outputs "data_out" =
        some (Value.arr out) ∧
      out.length = mergeLeftRows.length ∧
      (∀ (i : Nat) (l : Value), mergeLeftRows[i]? = some l →
        mapGetLast mergeRightRows (splitJoinKey (mergeNodeM.fieldStr "key")).2
            (rowProp l (splitJoinKey (mergeNodeM.fieldStr "key")).1) = none →
        out[i]? = some l) ∧
      (∀ (i : Nat) (l r : Value), mergeLeftRows[i]? = some l →
        mapGetLast mergeRightRows (splitJoinKey (mergeNodeM.fieldStr "key")).2
            (rowProp l (splitJoinKey (mergeNodeM.fieldStr "key")).1) = some r →
        r.truthy = true →
        out[i]? = some (spreadV l r) ∧ r ∈ mergeRightRows ∧
        (((objFieldsOf r).map Prod.fst).Nodup →
          ∀ k, rowProp (spreadV l r) k =
            match rowProp r k with
            | some v => some v
            | none => rowProp l k)) :=
  c10_merge_left_outer_join mergeEditor mergeNodeM
    ⟨⟨"node_0", "data_out"⟩, ⟨"node_2", "data_in_1"⟩⟩
    ⟨⟨"node_1", "data_out"⟩, ⟨"node_2", "data_in_2"⟩⟩
    mergeLeftRows mergeRightRows rfl rfl (by decide) rfl rfl

/-- C9: the aggregate node of scenario B — groupBy "cat", aggFunc "sum",
aggKey "v", its data input connected to an upstream array output holding
the three claimed rows — produces, after being propagated, exactly the
claimed output array [{cat:"x", sum_of_v:3}, {cat:"y", sum_of_v:5}]. -/
theorem c9_aggregate_scenario_b :
    ((processNodeData (nodeProcessors evFail) 3 scenarioBEditor "node_1").1.findNode
        "node_1").map (fun nd => getProp nd.outputs "data_out") =
      some (some (Value.arr
        [ Value.obj [("cat", Value.str "x"), ("sum_of_v", Value.num (JNum.ofInt 3))],
          Value.obj [("cat", Value.str "y"), ("sum_of_v", Value.num (JNum.ofInt 5))] ])) := by
  decide

/-- C3, evaluated at the failing input: serialize stores a text node's
textarea in content under its data-output key "text_out", but the
text-node template reads options.text on rebuild, so
deserialize(serialize(G)) empties the node's text while ids, types,
positions and connections survive.  The claim's required exact
reproduction fails on the code. -/
theorem c3_roundtrip_loses_text_content :
    (serialize (textEditor "hello")).nodes.map (fun n => n.content) =
      [[("text_out", Value.str "hello")]] ∧
    ((textEditor "hello").findNode "node_0").map (fun nd => nd.fields) =
      some [("text_out", Value.str "hello")] ∧
    ((deserialize (nodeProcessors evFail) 3 (textEditor "hello")
        (serialize (textEditor "hello"))).findNode "node_0").map (fun nd => nd.fields) =
      some [("text_out", Value.str "")] ∧
    (deserialize (nodeProcessors evFail) 3 (textEditor "hello")
        (serialize (textEditor "hello"))).nodes.map
        (fun nd => (nd.id, nd.type, nd.x, nd.y)) =
      (textEditor "hello").nodes.map (fun nd => (nd.id, nd.type, nd.x, nd.y)) ∧
    (deserialize (nodeProcessors evFail) 3 (textEditor "hello")
        (serialize (textEditor "hello"))).connections =
      (textEditor "hello").connections := by
  decide

/-- C4, evaluated at the failing run: after two recorded edits of the
text node (to "hello", then "world"), one undo followed by one redo
returns both history stacks to their post-E2 configuration, but the live
graph is not the state reached after E2 — the text node's content is
empty, because the restore goes through the lossy deserialize. -/
theorem c4_undo_redo_loses_text :
    c4App2.hist.undoStack =
      [serialize (textEditor ""), serialize (textEditor "hello"),
        serialize (textEditor "world")] ∧
    c4AppRedo.hist.undoStack = c4App2.hist.undoStack ∧
    c4AppRedo.hist.redoStack = [] ∧
    ((c4App2.ed.findNode "node_0").map (fun nd => nd.fields) =
      some [("text_out", Value.str "world")]) ∧
    ((c4AppRedo.ed.findNode "node_0").map (fun nd => nd.fields) =
      some [("text_out", Value.str "")]) := by
  decide

/-- C8 counterexample: loading the text "{}" — valid JSON that is a
malformed session (no nodes field) — surfaces the single notification
but leaves the graph cleared, not in its last-good state. -/
theorem c8_counterexample :
    (loadFromString parseEmptyObject (nodeProcessors evFail) 3
        (textEditor "hello") "\x7b\x7d").2 = true ∧
    (loadFromString parseEmptyObject (nodeProcessors evFail) 3
        (textEditor "hello") "\x7b\x7d").1.nodes = [] ∧
    (textEditor "hello").nodes ≠ [] := by
  decide

/-- C8 (amended): at the load boundary, input whose JSON parse fails is
caught before any mutation — one notification, graph untouched; input
that parses but lacks the nodes list throws only after the graph was
cleared, so the same single notification is shown but the editor is left
with the empty rebuilt graph (view fields restored from the parse),
not in its last-good state. -/
theorem c8_load_boundary (parse : JsonParse) (P : Registry) (fuel : Nat)
    (ed : Editor) (s : String) :
    (parse s = none → loadFromString parse P fuel ed s = (ed, true)) ∧
    (∀ ps, parse s = some ps → ps.nodes = none →
      loadFromString parse P fuel ed s =
        ({ nodes := [], connections := [],
           canvasOffset := ps.canvasOffset.getD (0, 0),
           scale := match ps.scale with
             | some q => if q == JNum.ofInt 0 then JNum.ofInt 1 else q
             | none => JNum.ofInt 1,
           nodeCounter := ps.nodeCounter.getD 0 }, true)) := by
  constructor
  · intro hp
    rw [loadFromString, hp]
  · intro ps hp hn
    rw [loadFromString, hp]
    simp only [deserializeCore, hn]

/-- Witness for the amended C8: a parse failure leaves the graph as it
was; the "{}" session leaves it cleared with defaults. -/
theorem c8_witness :
    loadFromString parseEmptyObject (nodeProcessors evFail) 3
        (textEditor "hello") "nonsense" = ((textEditor "hello"), true) ∧
    loadFromString parseEmptyObject (nodeProcessors evFail) 3
        (textEditor "hello") "\x7b\x7d" =
      ({ nodes := [], connections := [], canvasOffset := (0, 0),
         scale := JNum.ofInt 1, nodeCounter := 0 }, true) :=
  ⟨(c8_load_boundary parseEmptyObject (nodeProcessors evFail) 3
      (textEditor "hello") "nonsense").1 rfl,
   (c8_load_boundary parseEmptyObject (nodeProcessors evFail) 3
      (textEditor "hello") "\x7b\x7d").2 ⟨none, none, none, none, none⟩ rfl rfl⟩

end LibertasInfinita
